import Mathlib

/-!
Verification development for the Collapsization game engine
(src/training/collapsization: constants.py, game.py, observation.py).

The Python engine is shallowly embedded: dict-based cards become a `Card`
structure, the role-keyed score/reward dictionaries become structures with one
field per role, Python lists become `List`, the reality-tile dictionary becomes
a function `Hex → Option Card`, and the mutating methods of
`CollapsizationState` become pure state-transformers.  Python `int` action IDs
are modelled as `Int` where the source can receive arbitrary IDs (so that
Python floor-division/modulo semantics are preserved), and list indexing with a
possibly negative index is modelled by `pyListGet` / `pyEraseIdx` (Python
raises `IndexError` on an out-of-range access, modelled as `none`).
`random.shuffle` is nondeterministic and is modelled as the identity
permutation; no theorem below depends on the order of the shuffled cards.
-/

/-- Card suits, mirroring `constants.Suit` (HEARTS = 0, DIAMONDS = 1, SPADES = 2). -/
inductive Suit where
  | hearts
  | diamonds
  | spades
deriving DecidableEq, Repr

/-- Numeric value of a suit, as the `IntEnum` values in `constants.Suit`. -/
def Suit.toNat : Suit → Nat
  | .hearts => 0
  | .diamonds => 1
  | .spades => 2

/-- Inverse of `Suit.toNat` on `{0, 1, 2}`, used by `index_to_card`
(`Suit(idx // NUM_RANKS)` in the source; the source raises on other inputs,
which are never produced because `index_to_card` guards `idx < NUM_CARDS`). -/
def suitOfNat (n : Nat) : Suit :=
  if n = 0 then .hearts else if n = 1 then .diamonds else .spades

/-- Number of ranks (`constants.NUM_RANKS`). -/
def NUM_RANKS : Nat := 13

/-- Number of suits (`constants.NUM_SUITS`). -/
def NUM_SUITS : Nat := 3

/-- Deck size (`constants.NUM_CARDS = NUM_SUITS * NUM_RANKS = 39`). -/
def NUM_CARDS : Nat := NUM_SUITS * NUM_RANKS

/-- `constants.RANK_VALUES` read off along the order of the `RANKS` tuple:
ranks are represented below by their index in `RANKS`
(0 ↦ "2", …, 8 ↦ "10", 9 ↦ "J", 10 ↦ "K", 11 ↦ "Q", 12 ↦ "A"),
and this list gives the numeric value of each rank index
(2,…,10,11,12,13,14: Queen = 13 outranks King = 12, Ace = 14). -/
def rankValues : List Int := [2, 3, 4, 5, 6, 7, 8, 9, 10, 11, 12, 13, 14]

/-- A card, mirroring the dicts built by `constants.make_card`:
`{"suit": int(suit), "rank": rank, "value": RANK_VALUES[rank]}`.
The string rank is represented by its index in the `RANKS` tuple. -/
structure Card where
  suit : Suit
  rankIdx : Nat
  value : Int
deriving DecidableEq, Repr

/-- `constants.make_card` with the rank given as a `RANKS` index. -/
def make_card (s : Suit) (rankIdx : Nat) : Card :=
  { suit := s, rankIdx := rankIdx, value := rankValues.getD rankIdx 0 }

/-- `constants.card_to_index`: `suit * NUM_RANKS + rank_idx` (the source's
`-1` guard for malformed dicts cannot fire on a well-formed `Card`). -/
def card_to_index (c : Card) : Nat :=
  c.suit.toNat * NUM_RANKS + c.rankIdx

/-- `constants.index_to_card`: `{}` (here `none`) when the index is outside
`[0, NUM_CARDS)`, otherwise the card for suit `idx // NUM_RANKS` and rank
`RANKS[idx % NUM_RANKS]`. -/
def index_to_card? (idx : Int) : Option Card :=
  if idx < 0 ∨ (NUM_CARDS : Int) ≤ idx then none
  else some (make_card (suitOfNat (idx.toNat / NUM_RANKS)) (idx.toNat % NUM_RANKS))

/-- In-range version of `index_to_card` for indices `0 ≤ idx < 39`. -/
def index_to_card (idx : Nat) : Card :=
  make_card (suitOfNat (idx / NUM_RANKS)) (idx % NUM_RANKS)

/-- Cube hex coordinate `(x, y, z)`; the source passes plain 3-tuples. -/
abbrev Hex := Int × Int × Int

/-- `constants.INVALID_HEX = (0x7FFFFFFF, 0, 0)`. -/
def INVALID_HEX : Hex := (0x7FFFFFFF, 0, 0)

/-- `constants.HEX_DIRECTIONS`, the six cube direction vectors. -/
def HEX_DIRECTIONS : List Hex :=
  [(1, -1, 0), (1, 0, -1), (0, 1, -1), (-1, 1, 0), (-1, 0, 1), (0, -1, 1)]

/-- `constants.get_adjacent_hexes`. -/
def get_adjacent_hexes (c : Hex) : List Hex :=
  HEX_DIRECTIONS.map (fun d => (c.1 + d.1, c.2.1 + d.2.1, c.2.2 + d.2.2))

/-!
Action-space constants, exactly as laid out at the top of `game.py`
(`MAX_FRONTIER_SIZE` comes from `observation.py`).
-/

/-- `observation.MAX_FRONTIER_SIZE = 50`. -/
def MAX_FRONTIER_SIZE : Nat := 50

/-- `game.MAX_FRONTIER_ACTIONS = MAX_FRONTIER_SIZE * NUM_CARDS`. -/
def MAX_FRONTIER_ACTIONS : Nat := MAX_FRONTIER_SIZE * NUM_CARDS

/-- `game.NOMINATIONS_PER_ADVISOR = 2`. -/
def NOMINATIONS_PER_ADVISOR : Nat := 2

/-- `game.MAX_NOMINATIONS = NOMINATIONS_PER_ADVISOR * 2 = 4`. -/
def MAX_NOMINATIONS : Nat := NOMINATIONS_PER_ADVISOR * 2

/-- `game.ACTION_REVEAL_BASE = 0`. -/
def ACTION_REVEAL_BASE : Nat := 0

/-- `game.ACTION_REVEAL_COUNT = 4`. -/
def ACTION_REVEAL_COUNT : Nat := 4

/-- `game.ACTION_CONTROL_BASE`. -/
def ACTION_CONTROL_BASE : Nat := ACTION_REVEAL_COUNT

/-- `game.ACTION_CONTROL_SUIT_A`. -/
def ACTION_CONTROL_SUIT_A : Nat := ACTION_CONTROL_BASE + 0

/-- `game.ACTION_CONTROL_SUIT_B`. -/
def ACTION_CONTROL_SUIT_B : Nat := ACTION_CONTROL_BASE + 1

/-- `game.ACTION_CONTROL_HEX_BASE`. -/
def ACTION_CONTROL_HEX_BASE : Nat := ACTION_CONTROL_BASE + 2

/-- `game.ACTION_CONTROL_HEX_COUNT = 50 * 50`. -/
def ACTION_CONTROL_HEX_COUNT : Nat := MAX_FRONTIER_SIZE * MAX_FRONTIER_SIZE

/-- `game.ACTION_CONTROL_REVEAL_BASE`, the base of the verify sub-range. -/
def ACTION_CONTROL_REVEAL_BASE : Nat := ACTION_CONTROL_BASE + 2 + ACTION_CONTROL_HEX_COUNT

/-- `game.ACTION_CONTROL_REVEAL_COUNT = 50`. -/
def ACTION_CONTROL_REVEAL_COUNT : Nat := MAX_FRONTIER_SIZE

/-- `game.ACTION_CONTROL_COUNT = 2 + 2500 + 50 = 2552`. -/
def ACTION_CONTROL_COUNT : Nat := 2 + ACTION_CONTROL_HEX_COUNT + ACTION_CONTROL_REVEAL_COUNT

/-- `game.ACTION_COMMIT_BASE`. -/
def ACTION_COMMIT_BASE : Nat := ACTION_CONTROL_BASE + ACTION_CONTROL_COUNT

/-- `game.ACTION_COMMIT_COUNT = 1950`. -/
def ACTION_COMMIT_COUNT : Nat := MAX_FRONTIER_ACTIONS

/-- `game.ACTION_BUILD_BASE`. -/
def ACTION_BUILD_BASE : Nat := ACTION_COMMIT_BASE + ACTION_COMMIT_COUNT

/-- `game.ACTION_BUILD_COUNT = 4 * MAX_NOMINATIONS = 16`. -/
def ACTION_BUILD_COUNT : Nat := 4 * MAX_NOMINATIONS

/-- `game.ACTION_CHANCE_BASE`. -/
def ACTION_CHANCE_BASE : Nat := ACTION_BUILD_BASE + ACTION_BUILD_COUNT

/-- `game.ACTION_CHANCE_COUNT = NUM_CARDS = 39`. -/
def ACTION_CHANCE_COUNT : Nat := NUM_CARDS

/-- `game.TOTAL_ACTIONS`. -/
def TOTAL_ACTIONS : Nat := ACTION_CHANCE_BASE + ACTION_CHANCE_COUNT

/-- `game.FACILITIES_TO_COMPLETE = 10`. -/
def FACILITIES_TO_COMPLETE : Nat := 10

/-!
The action codec: encoders are the closed forms used when legal actions are
generated (`_draw_legal_actions`, `_control_legal_actions`,
`_nominate_legal_actions`, `_place_legal_actions`, `_chance_legal_actions`)
and decoders are the arithmetic performed by the `_apply_*` methods.
-/

/-- REVEAL encoder: `ACTION_REVEAL_BASE + i` (`_draw_legal_actions`). -/
def encodeReveal (slot : Nat) : Nat := ACTION_REVEAL_BASE + slot

/-- REVEAL decoder: `action - ACTION_REVEAL_BASE` (`_apply_reveal`). -/
def decodeReveal (a : Nat) : Nat := a - ACTION_REVEAL_BASE

/-- A Control-phase domain action: one of the two suit configurations or a
forced hex pair (`urb_hex_idx`, `ind_hex_idx`). -/
inductive ControlAction where
  | suitA
  | suitB
  | hexPair (urbIdx indIdx : Nat)
deriving DecidableEq, Repr

/-- CONTROL encoder (`_control_legal_actions`): `ACTION_CONTROL_SUIT_A`,
`ACTION_CONTROL_SUIT_B`, or `ACTION_CONTROL_HEX_BASE + urb * MAX_FRONTIER_SIZE + ind`. -/
def encodeControl : ControlAction → Nat
  | .suitA => ACTION_CONTROL_SUIT_A
  | .suitB => ACTION_CONTROL_SUIT_B
  | .hexPair u i => ACTION_CONTROL_HEX_BASE + u * MAX_FRONTIER_SIZE + i

/-- CONTROL decoder, the dispatch of `_apply_control`: equality tests against
the two suit actions, then `// MAX_FRONTIER_SIZE` and `% MAX_FRONTIER_SIZE`
on `action - ACTION_CONTROL_HEX_BASE`. -/
def decodeControl (a : Nat) : Option ControlAction :=
  if a = ACTION_CONTROL_SUIT_A then some .suitA
  else if a = ACTION_CONTROL_SUIT_B then some .suitB
  else if ACTION_CONTROL_HEX_BASE ≤ a then
    some (.hexPair ((a - ACTION_CONTROL_HEX_BASE) / MAX_FRONTIER_SIZE)
                   ((a - ACTION_CONTROL_HEX_BASE) % MAX_FRONTIER_SIZE))
  else none

/-- COMMIT encoder: `ACTION_COMMIT_BASE + hex_idx * NUM_CARDS + claim_idx`
(`_nominate_legal_actions`). -/
def encodeCommit (hexIdx claimIdx : Nat) : Nat :=
  ACTION_COMMIT_BASE + hexIdx * NUM_CARDS + claimIdx

/-- COMMIT decoder: `// NUM_CARDS` and `% NUM_CARDS` on
`action - ACTION_COMMIT_BASE` (`_apply_commit`). -/
def decodeCommit (a : Nat) : Nat × Nat :=
  ((a - ACTION_COMMIT_BASE) / NUM_CARDS, (a - ACTION_COMMIT_BASE) % NUM_CARDS)

/-- BUILD encoder: `ACTION_BUILD_BASE + card_idx * MAX_NOMINATIONS + nom_idx`
(`_place_legal_actions`). -/
def encodeBuild (cardIdx nomIdx : Nat) : Nat :=
  ACTION_BUILD_BASE + cardIdx * MAX_NOMINATIONS + nomIdx

/-- BUILD decoder: `// MAX_NOMINATIONS` and `% MAX_NOMINATIONS` on
`action - ACTION_BUILD_BASE` (`_apply_place`). -/
def decodeBuild (a : Nat) : Nat × Nat :=
  ((a - ACTION_BUILD_BASE) / MAX_NOMINATIONS, (a - ACTION_BUILD_BASE) % MAX_NOMINATIONS)

/-- VERIFY encoder: `ACTION_CONTROL_REVEAL_BASE + nom_idx`
(`_place_legal_actions`). -/
def encodeVerify (nomIdx : Nat) : Nat := ACTION_CONTROL_REVEAL_BASE + nomIdx

/-- CHANCE encoder: `ACTION_CHANCE_BASE + card_index`
(`_chance_legal_actions`). -/
def encodeChance (cardIdx : Nat) : Nat := ACTION_CHANCE_BASE + cardIdx

/-- CHANCE decoder: `action - ACTION_CHANCE_BASE` (`_apply_chance`). -/
def decodeChance (a : Nat) : Nat := a - ACTION_CHANCE_BASE

/-!
Game-state data model, mirroring the fields of `CollapsizationState.__init__`
that the verified claims touch.  The role-keyed string dictionaries
(`_scores`, `_turn_rewards`, `_advisor_commits`, `_advisor_trays`,
`_forced_hexes`) become structures with one field per role.
-/

/-- The two advisor roles, the values of the `"industry"` / `"urbanist"`
string keys used throughout `game.py`. -/
inductive Advisor where
  | industry
  | urbanist
deriving DecidableEq, Repr

/-- `constants.Phase`. -/
inductive Phase where
  | LOBBY
  | DRAW
  | CONTROL
  | NOMINATE
  | PLACE
  | GAME_OVER
deriving DecidableEq, Repr

/-- The `_sub_phase` string tags of `CollapsizationState`. -/
inductive SubPhase where
  | drawing
  | ready
  | control
  | industryCommit1
  | industryCommit2
  | urbanistCommit1
  | urbanistCommit2
deriving DecidableEq, Repr

/-- `constants.ControlMode`. -/
inductive ControlMode where
  | NONE
  | FORCE_SUITS
  | FORCE_HEXES
  | REVEAL_HEX
deriving DecidableEq, Repr

/-- `constants.SuitConfig`. -/
inductive SuitConfig where
  | URB_DIAMOND_IND_HEART
  | URB_HEART_IND_DIAMOND
deriving DecidableEq, Repr

/-- The `_scores` dictionary `{"mayor": int, "industry": int, "urbanist": int}`. -/
structure Scores where
  mayor : Int
  industry : Int
  urbanist : Int
deriving DecidableEq, Repr

/-- Read an advisor's entry of the score dictionary. -/
def Scores.get (s : Scores) : Advisor → Int
  | .industry => s.industry
  | .urbanist => s.urbanist

/-- `self._scores[advisor] += d` for an advisor key. -/
def Scores.addAdvisor (s : Scores) : Advisor → Int → Scores
  | .industry, d => { s with industry := s.industry + d }
  | .urbanist, d => { s with urbanist := s.urbanist + d }

/-- The `_turn_rewards` dictionary of per-turn shaping floats; the float
values arising here are dyadic rationals, modelled exactly in `ℚ`. -/
structure TurnRewards where
  mayor : ℚ
  industry : ℚ
  urbanist : ℚ
deriving DecidableEq, Repr

/-- One nomination dict `{"hex": ..., "claim": ..., "advisor": ...}` as built
by `_apply_commit` (those always carry all three entries). -/
structure Nomination where
  hex : Hex
  claim : Card
  advisor : Advisor
deriving DecidableEq, Repr

/-- One `_turn_history` entry as appended by `_apply_place`. -/
structure HistoryEntry where
  turn : Nat
  revealedIndices : List Nat
  controlMode : ControlMode
  forcedSuitConfig : Option SuitConfig
  forcedHexUrb : Option Hex
  forcedHexInd : Option Hex
  nominations : List Nomination
  buildHex : Hex
  buildCard : Card
  buildReality : Option Card
  scoresDelta : Scores

/-- The mutable state of `CollapsizationState`.  Python sets
(`_revealed_hexes`, `_mayor_verified_hexes`) are modelled as lists with
list membership; the `_reality` dict is a function `Hex → Option Card`;
`maxFrontier` is the game parameter `self._game.max_frontier`. -/
structure GameState where
  phase : Phase
  subPhase : SubPhase
  turn : Nat
  isTerminal : Bool
  scores : Scores
  turnRewards : TurnRewards
  hand : List Card
  revealedIndices : List Nat
  deck : List Card
  discard : List Card
  builtHexes : List Hex
  reality : Hex → Option Card
  revealedHexes : List Hex
  mayorVerifiedHexes : List Hex
  industryCommits : List Nomination
  urbanistCommits : List Nomination
  industryTray : List Nat
  urbanistTray : List Nat
  nominations : List Nomination
  pendingDraws : Nat
  controlMode : ControlMode
  forcedSuitConfig : Option SuitConfig
  forcedHexUrb : Option Hex
  forcedHexInd : Option Hex
  controlRevealedHex : Option Hex
  turnHistory : List HistoryEntry
  facilitiesHearts : Nat
  facilitiesDiamonds : Nat
  cityComplete : Bool
  mayorHitMine : Bool
  maxFrontier : Nat

/-- `returns()`: the accumulated scores as floats,
`[scores["mayor"], scores["industry"], scores["urbanist"]]`. -/
def GameState.returns (s : GameState) : List ℚ :=
  [(s.scores.mayor : ℚ), (s.scores.industry : ℚ), (s.scores.urbanist : ℚ)]

/-- `mayor_hit_mine()`. -/
def GameState.mayorHitMineQ (s : GameState) : Bool := s.mayorHitMine

/-- `turn_rewards()`. -/
def GameState.turnRewardsList (s : GameState) : List ℚ :=
  [s.turnRewards.mayor, s.turnRewards.industry, s.turnRewards.urbanist]

/-- The OpenSpiel player ids returned by `current_player()`. -/
inductive PlayerId where
  | mayorP
  | industryP
  | urbanistP
  | chanceP
  | terminalP
deriving DecidableEq, Repr

/-- `current_player()`. -/
def currentPlayer (s : GameState) : PlayerId :=
  if s.isTerminal then .terminalP
  else if 0 < s.pendingDraws then .chanceP
  else match s.phase with
    | .DRAW => if s.subPhase = .drawing then .chanceP else .mayorP
    | .CONTROL => .mayorP
    | .NOMINATE =>
        match s.subPhase with
        | .industryCommit1 => .industryP
        | .industryCommit2 => .industryP
        | .urbanistCommit1 => .urbanistP
        | .urbanistCommit2 => .urbanistP
        | _ => .industryP
    | .PLACE => .mayorP
    | _ => .terminalP

/-!
Python-list indexing helpers: Python `l[i]` accepts `-len(l) ≤ i < len(l)`
(negative indices count from the end) and raises `IndexError` (modelled as
`none`) otherwise; `del l[i]` removes the so-addressed element.
-/

/-- Normalize a Python list index against a length. -/
def pyIdx (len : Nat) (i : Int) : Option Nat :=
  if 0 ≤ i then (if i < (len : Int) then some i.toNat else none)
  else (if 0 ≤ i + (len : Int) then some (i + (len : Int)).toNat else none)

/-- Python `l[i]`. -/
def pyListGet (l : List Card) (i : Int) : Option Card :=
  (pyIdx l.length i).bind (fun j => l.get? j)

/-- Python `del l[i]` (on a valid index; an invalid index leaves `l`,
a case no caller below reaches). -/
def pyEraseIdx (l : List Card) (i : Int) : List Card :=
  match pyIdx l.length i with
  | some j => l.eraseIdx j
  | none => l

/-- `_draw_card`: pop from the end of the deck, first replacing an empty deck
by the reshuffled discard pile (`random.shuffle` modelled as the identity
permutation); if both are empty, the safe default card 7♥ (rank index 5). -/
def drawCard (deck discard : List Card) : Card × List Card × List Card :=
  let (deck, discard) :=
    if deck.isEmpty then (discard, ([] : List Card)) else (deck, discard)
  match deck.getLast? with
  | some c => (c, deck.dropLast, discard)
  | none => (make_card Suit.hearts 5, deck, discard)

/-- The four fields of the state that `_reveal_around` touches. -/
structure RevealResult where
  revealed : List Hex
  reality : Hex → Option Card
  deck : List Card
  discard : List Card

/-- The loop body of `_reveal_around`: mark one neighbour revealed and
generate its reality tile from the deck if it has none yet. -/
def revealStep (acc : RevealResult) (adj : Hex) : RevealResult :=
  let acc := { acc with revealed := acc.revealed ++ [adj] }
  match acc.reality adj with
  | some _ => acc
  | none =>
      let (c, dk, dc) := drawCard acc.deck acc.discard
      { acc with
          reality := fun h => if h = adj then some c else acc.reality h,
          deck := dk, discard := dc }

/-- `_reveal_around(hex)`: mark the hex and its six neighbours revealed and
lazily generate (via `_draw_card`) a reality tile for each neighbour that has
none yet. -/
def revealAround (hexC : Hex) (rv : RevealResult) : RevealResult :=
  (get_adjacent_hexes hexC).foldl revealStep
    { rv with revealed := rv.revealed ++ [hexC] }

/-- `_get_playable_frontier`: hexes adjacent to built hexes that are not
themselves built, de-duplicated, in discovery order. -/
def playableFrontier (built : List Hex) : List Hex :=
  built.foldl
    (fun acc b =>
      (get_adjacent_hexes b).foldl
        (fun acc adj =>
          if adj ∈ built ∨ adj ∈ acc then acc else acc ++ [adj])
        acc)
    []

/-!
The scoring engine (`_calculate_turn_scores`, `_apply_death_reveal_penalty`,
`_compute_mine_dodge_bonus`) and the tie-break loop it contains.
-/

/-- `abs(claim_value - placed_value)` for a nomination against the placed
card. -/
def claimDiff (placed : Card) (n : Nomination) : Nat :=
  (n.claim.value - placed.value).natAbs

/-- `claim_suit == placed_suit` in the tie-break loop. -/
def suitMatchB (placed : Card) (n : Nomination) : Bool :=
  n.claim.suit == placed.suit

/-- The domain-affinity test of the tie-break loop: Hearts claims favour the
urbanist, Diamonds/Spades claims favour industry. -/
def domainMatchB (n : Nomination) : Bool :=
  (n.claim.suit == Suit.hearts && n.advisor == Advisor.urbanist)
    || ((n.claim.suit == Suit.diamonds || n.claim.suit == Suit.spades)
          && n.advisor == Advisor.industry)

/-- The loop state of the tie-break in `_calculate_turn_scores`:
`best_diff` (`None` is the initial `float("inf")`), `best_suit_match`,
`best_domain_match`, `winning_nom`. -/
structure TBState where
  bestDiff : Option Nat
  bestSuit : Bool
  bestDom : Bool
  winner : Nomination

/-- The `dominated` test of the tie-break loop. -/
def dominatedB (diff : Nat) (sm dm : Bool) (st : TBState) : Bool :=
  match st.bestDiff with
  | none => true
  | some bd =>
      if diff < bd then true
      else if diff = bd then
        if sm && !st.bestSuit then true
        else if sm == st.bestSuit then dm && !st.bestDom
        else false
      else false

/-- One iteration of the tie-break loop. -/
def tieBreakStep (placed : Card) (st : TBState) (n : Nomination) : TBState :=
  let diff := claimDiff placed n
  let sm := suitMatchB placed n
  let dm := domainMatchB n
  if dominatedB diff sm dm st then ⟨some diff, sm, dm, n⟩ else st

/-- The winning nomination for the chosen hex.  The source initializes
`winning_nom = noms_for_hex[0]` and runs the loop only for
`len(noms_for_hex) > 1`; running the loop over a singleton list from the
initial state returns that same element, so one fold covers both cases. -/
def selectWinner (placed : Card) (noms : List Nomination) (head : Nomination) :
    Nomination :=
  (noms.foldl (tieBreakStep placed) ⟨none, false, false, head⟩).winner

/-- The `used_domain_affinity_for_spades` flag: the first two nominations for
the chosen hex carry Spade claims with equal suit and equal value.  The source
computes it only when `len(noms_for_hex) > 1` and leaves it `False`
otherwise, as does this function. -/
def identicalSpadeFlag (noms : List Nomination) : Bool :=
  match noms with
  | n1 :: n2 :: _ =>
      n1.claim.suit == Suit.spades && n1.claim.suit == n2.claim.suit
        && n1.claim.value == n2.claim.value
  | _ => false

/-- The Spade-reality branch of `_calculate_turn_scores`: every advisor with
a nomination for the chosen hex is scored once (`scored_advisors` de-dupes):
+1 for a Spade claim (honest warning), −3 otherwise.  The advisor key of a
nomination built by `_apply_commit` is never empty, so the `if not advisor`
guard is not modelled. -/
def scoreMineNoms : List Nomination → Scores → List Advisor → Scores
  | [], sc, _ => sc
  | n :: rest, sc, seen =>
      if n.advisor ∈ seen then scoreMineNoms rest sc seen
      else
        let sc :=
          if n.claim.suit = Suit.spades then sc.addAdvisor n.advisor 1
          else sc.addAdvisor n.advisor (-3)
        scoreMineNoms rest sc (seen ++ [n.advisor])

/-- The non-mine branch of `_calculate_turn_scores` acting on the advisor
scores: tie-break winner selection, the identical-Spade false-alarm special
case, and otherwise the bluff-detection scoring of the winner. -/
def scoreNonMine (placed : Card) (realitySuit : Option Suit)
    (nomsForHex : List Nomination) (head : Nomination) (sc : Scores) : Scores :=
  let winner := selectWinner placed nomsForHex head
  let flag := identicalSpadeFlag nomsForHex
  if flag ∧ ¬ realitySuit = some Suit.spades then
    nomsForHex.foldl (fun s n => s.addAdvisor n.advisor (-2)) sc
  else if placed.suit = winner.claim.suit then sc.addAdvisor winner.advisor 1
  else if some winner.claim.suit = realitySuit then sc.addAdvisor winner.advisor 1
  else if winner.claim.suit = Suit.spades then sc.addAdvisor winner.advisor (-2)
  else sc

/-- `_calculate_turn_scores` input/output: the `_scores` and `_turn_rewards`
dictionaries. -/
structure ScoringState where
  scores : Scores
  turnRewards : TurnRewards
deriving DecidableEq, Repr

/-- `_calculate_turn_scores(placed_card, chosen_hex, chosen_nomination)`.
The `chosen_nomination` parameter is unused by the source body and is kept
for signature fidelity.  Missing dictionary entries (`reality.get(...)`
giving `{}`, with `.get("suit", -1) = -1`) are the `none` cases of the
`Option`s. -/
def calcTurnScores (placed : Card) (chosenHex : Hex) (_chosenNom : Nomination)
    (reality : Hex → Option Card) (noms : List Nomination)
    (st : ScoringState) : ScoringState :=
  let prev := st.scores
  let realitySuit := (reality chosenHex).map Card.suit
  let isMine := realitySuit = some Suit.spades
  let nomsForHex := noms.filter (fun n => decide (n.hex = chosenHex))
  match nomsForHex with
  | [] => st
  | head :: _ =>
      let advScores :=
        if isMine then scoreMineNoms nomsForHex prev []
        else scoreNonMine placed realitySuit nomsForHex head prev
      let newScores :=
        if ¬ isMine ∧ some placed.suit = realitySuit then
          { advScores with mayor := advScores.mayor + 1 }
        else advScores
      let mD : ℚ := ((newScores.mayor - prev.mayor : Int) : ℚ)
      let iD : ℚ := ((newScores.industry - prev.industry : Int) : ℚ)
      let uD : ℚ := ((newScores.urbanist - prev.urbanist : Int) : ℚ)
      let tr : TurnRewards :=
        { mayor := mD - (iD + uD) / 2,
          industry := iD - (mD + uD) / 2,
          urbanist := uD - (mD + iD) / 2 }
      let tr :=
        if ¬ isMine then { tr with mayor := tr.mayor + 10 }
        else { tr with mayor := -10 }
      { scores := newScores, turnRewards := tr }

/-- `_apply_death_reveal_penalty`: scan every outstanding nomination; −3 for
a non-Spade claim on a Spade reality (lied about a mine), −2 for a Spade
claim on a non-Spade reality (cried wolf). -/
def deathRevealPenalty (reality : Hex → Option Card)
    (noms : List Nomination) (sc : Scores) : Scores :=
  noms.foldl
    (fun s n =>
      let rSuit := (reality n.hex).map Card.suit
      if rSuit = some Suit.spades ∧ ¬ n.claim.suit = Suit.spades then
        s.addAdvisor n.advisor (-3)
      else if ¬ rSuit = some Suit.spades ∧ n.claim.suit = Suit.spades then
        s.addAdvisor n.advisor (-2)
      else s)
    sc

/-- `_compute_mine_dodge_bonus(chosen_hex)`: +10 per non-chosen nominated
mine whose claim denied it, +2 per honestly warned non-chosen mine. -/
def mineDodgeBonus (chosenHex : Hex) (reality : Hex → Option Card)
    (noms : List Nomination) : ℚ :=
  noms.foldl
    (fun b n =>
      if n.hex = chosenHex then b
      else if ¬ (reality n.hex).map Card.suit = some Suit.spades then b
      else if ¬ n.claim.suit = Suit.spades then b + 10
      else b + 2)
    0

/-!
`_apply_place` and the surrounding turn machinery.
-/

/-- The per-turn reset block at the end of `_apply_place` (both the VERIFY
and the BUILD exits run it verbatim). -/
def turnReset (s : GameState) : GameState :=
  { s with
      phase := .DRAW, hand := [], revealedIndices := [], pendingDraws := 4,
      controlMode := .NONE, forcedSuitConfig := none,
      forcedHexUrb := none, forcedHexInd := none, controlRevealedHex := none,
      subPhase := .drawing, nominations := [] }

/-- The mine-dodge block of `_apply_place`: add
`_compute_mine_dodge_bonus(chosen_hex)` to the Mayor's turn reward when it is
positive. -/
def dodgeUpdate (chosenHex : Hex) (s : GameState) : GameState :=
  let dodge := mineDodgeBonus chosenHex s.reality s.nominations
  if 0 < dodge then
    { s with turnRewards :=
        { s.turnRewards with mayor := s.turnRewards.mayor + dodge } }
  else s

/-- The facility-counting block of `_apply_place`: increment the Hearts or
Diamonds facility counter by the reality suit of the built hex. -/
def facilityUpdate (realitySuit : Option Suit) (s : GameState) : GameState :=
  if realitySuit = some Suit.hearts then
    { s with facilitiesHearts := s.facilitiesHearts + 1 }
  else if realitySuit = some Suit.diamonds then
    { s with facilitiesDiamonds := s.facilitiesDiamonds + 1 }
  else s

/-- The tail of the BUILD branch of `_apply_place`: either city completion
(10 Hearts and 10 Diamonds) ends the game, or the placed card is discarded,
removed from the hand, and the next turn starts. -/
def cityFinish (card : Card) (cardIdx : Int) (s : GameState) : GameState :=
  if FACILITIES_TO_COMPLETE ≤ s.facilitiesHearts
      ∧ FACILITIES_TO_COMPLETE ≤ s.facilitiesDiamonds then
    { s with cityComplete := true, isTerminal := true }
  else
    turnReset
      { s with
          discard := s.discard ++ [card],
          hand := pyEraseIdx s.hand cardIdx,
          turn := s.turn + 1 }

set_option maxHeartbeats 1000000 in
/-- The body of the BUILD branch of `_apply_place` after the chosen
nomination and placed card have been resolved. -/
def buildStep (s0 : GameState) (nom : Nomination) (card : Card)
    (cardIdx : Int) : GameState :=
  let chosenHex := nom.hex
  let s1 := { s0 with builtHexes := s0.builtHexes ++ [chosenHex] }
  let rr := revealAround chosenHex
    ⟨s1.revealedHexes, s1.reality, s1.deck, s1.discard⟩
  let s2 := { s1 with
      revealedHexes := rr.revealed, reality := rr.reality,
      deck := rr.deck, discard := rr.discard }
  let prevScores := s2.scores
  let res := calcTurnScores card chosenHex nom s2.reality s2.nominations
    ⟨s2.scores, s2.turnRewards⟩
  let s3 := { s2 with scores := res.scores, turnRewards := res.turnRewards }
  let entry : HistoryEntry :=
    { turn := s3.turn, revealedIndices := s3.revealedIndices,
      controlMode := s3.controlMode, forcedSuitConfig := s3.forcedSuitConfig,
      forcedHexUrb := s3.forcedHexUrb, forcedHexInd := s3.forcedHexInd,
      nominations := s3.nominations, buildHex := chosenHex, buildCard := card,
      buildReality := s3.reality chosenHex,
      scoresDelta :=
        ⟨s3.scores.mayor - prevScores.mayor,
         s3.scores.industry - prevScores.industry,
         s3.scores.urbanist - prevScores.urbanist⟩ }
  let s4 := { s3 with turnHistory := s3.turnHistory ++ [entry] }
  let realitySuit := (s4.reality chosenHex).map Card.suit
  if realitySuit = some Suit.spades then
    let s5 := { s4 with mayorHitMine := true, isTerminal := true }
    { s5 with scores := deathRevealPenalty s5.reality s5.nominations s5.scores }
  else
    cityFinish card cardIdx (facilityUpdate realitySuit (dodgeUpdate chosenHex s4))

/-- `_apply_place(action)`: a VERIFY action
(`ACTION_CONTROL_REVEAL_BASE <= action < ACTION_COMMIT_BASE`) reveals one
nominated hex to the Mayor and ends the turn without building; any other
action is decoded as a BUILD.  `none` models the Python `IndexError` raised
by `self._hand[card_idx]` when the decoded (possibly negative) index is out
of range. -/
def applyPlace (s : GameState) (action : Int) : Option GameState :=
  if (ACTION_CONTROL_REVEAL_BASE : Int) ≤ action
      ∧ action < (ACTION_COMMIT_BASE : Int) then
    let nomIdx := (action - (ACTION_CONTROL_REVEAL_BASE : Int)).toNat
    let s :=
      match s.nominations.get? nomIdx with
      | some nom =>
          let s := { s with
              mayorVerifiedHexes := s.mayorVerifiedHexes ++ [nom.hex],
              controlRevealedHex := some nom.hex }
          let bonus : ℚ :=
            if (s.reality nom.hex).map Card.suit = some Suit.spades then 10
            else 2
          { s with turnRewards :=
              { s.turnRewards with mayor := s.turnRewards.mayor + bonus } }
      | none => s
    some (turnReset { s with turn := s.turn + 1 })
  else
    let placeIdx := action - (ACTION_BUILD_BASE : Int)
    let cardIdx := Int.fdiv placeIdx (MAX_NOMINATIONS : Int)
    let nomIdx := Int.emod placeIdx (MAX_NOMINATIONS : Int)
    if (s.hand.length : Int) ≤ cardIdx then some s
    else if (s.nominations.length : Int) ≤ nomIdx then some s
    else
      match s.nominations.get? nomIdx.toNat, pyListGet s.hand cardIdx with
      | some nom, some card => some (buildStep s nom card cardIdx)
      | _, _ => none

/-- `_apply_chance(action)`: construct `index_to_card(action -
ACTION_CHANCE_BASE)` and append it to the hand — the deck is not touched.
The source would append an empty dict `{}` for an out-of-range index (no
legal chance action is out of range); that degenerate case is `none` here. -/
def applyChance (s : GameState) (action : Int) : Option GameState :=
  (index_to_card? (action - (ACTION_CHANCE_BASE : Int))).map
    (fun card =>
      let s := { s with
          hand := s.hand ++ [card], pendingDraws := s.pendingDraws - 1 }
      if s.pendingDraws = 0 then { s with subPhase := .ready } else s)

/-- `_chance_legal_actions`: always the full block of `NUM_CARDS` chance IDs,
regardless of the deck and discard contents. -/
def chanceLegalActions (_s : GameState) : List Nat :=
  List.range' ACTION_CHANCE_BASE NUM_CARDS

/-- `chance_outcomes()`: uniform probability over the legal chance actions
(`1.0 / len(actions)`, a float modelled in `ℚ`). -/
def chanceOutcomes (s : GameState) : List (Nat × ℚ) :=
  if currentPlayer s = .chanceP then
    let actions := chanceLegalActions s
    let prob : ℚ := if actions.length = 0 then 0 else 1 / (actions.length : ℚ)
    actions.map (fun a => (a, prob))
  else []

/-- Python list indexing on `Hex` lists (for `frontier[hex_idx]` in
`_apply_commit`). -/
def pyHexGet (l : List Hex) (i : Int) : Option Hex :=
  (pyIdx l.length i).bind (fun j => l.get? j)

/-- `_apply_commit(action, player)`: decode the commit, guard
`hex_idx >= max_frontier` (a warning print and a silent `return`), append the
nomination, remove the claim card from the advisor's tray, and advance the
sub-phase (building the flat nomination list and entering PLACE after the
fourth commit).  `none` models the `IndexError` a negative out-of-range
`frontier[hex_idx]` would raise. -/
def applyCommit (s : GameState) (action : Int) (player : Advisor) :
    Option GameState :=
  let commitIdx := action - (ACTION_COMMIT_BASE : Int)
  let hexIdx := Int.fdiv commitIdx (NUM_CARDS : Int)
  let claimIdx := Int.emod commitIdx (NUM_CARDS : Int)
  let frontier := playableFrontier s.builtHexes
  let maxFrontier := min frontier.length s.maxFrontier
  if (maxFrontier : Int) ≤ hexIdx then some s
  else
    match pyHexGet frontier hexIdx, index_to_card? claimIdx with
    | some hexCoord, some claimCard =>
        let nom : Nomination :=
          { hex := hexCoord, claim := claimCard, advisor := player }
        let s :=
          match player with
          | .industry =>
              { s with industryCommits := s.industryCommits ++ [nom],
                       industryTray := s.industryTray.erase claimIdx.toNat }
          | .urbanist =>
              { s with urbanistCommits := s.urbanistCommits ++ [nom],
                       urbanistTray := s.urbanistTray.erase claimIdx.toNat }
        match s.subPhase with
        | .industryCommit1 => some { s with subPhase := .industryCommit2 }
        | .industryCommit2 => some { s with subPhase := .urbanistCommit1 }
        | .urbanistCommit1 => some { s with subPhase := .urbanistCommit2 }
        | _ =>
            some { s with
                nominations := s.industryCommits ++ s.urbanistCommits,
                phase := .PLACE, subPhase := .ready }
    | _, _ => none

/-!
Spec-side comparison functions: these two follow the wording of the
specification (§4.5, mine reality and death-reveal cascade) and are compared
with the source-derived scoring functions in the claim theorems.
-/

/-- Spec wording, mine reality: every advisor who nominated the chosen hex is
scored independently, +1 if their claim suit was Spade, −3 otherwise (an
advisor without a nomination on the hex gets 0 here). -/
def specMineHexDelta (chosenHex : Hex) (noms : List Nomination)
    (adv : Advisor) : Int :=
  match noms.find? (fun n => decide (n.hex = chosenHex) && decide (n.advisor = adv)) with
  | some n => if n.claim.suit = Suit.spades then 1 else -3
  | none => 0

/-- Spec wording, death-reveal cascade, one nomination: −3 for a non-Spade
claim that denied a hex whose reality is a mine, −2 for a Spade claim that
falsely cried mine on a non-mine hex, 0 for an honest claim. -/
def specCascadePenalty (reality : Hex → Option Card) (n : Nomination) : Int :=
  if (reality n.hex).map Card.suit = some Suit.spades
      ∧ ¬ n.claim.suit = Suit.spades then -3
  else if ¬ (reality n.hex).map Card.suit = some Suit.spades
      ∧ n.claim.suit = Suit.spades then -2
  else 0

/-- Spec wording, death-reveal cascade, total for one advisor over every
currently outstanding nomination. -/
def specCascadeDelta (reality : Hex → Option Card) (noms : List Nomination)
    (adv : Advisor) : Int :=
  ((noms.filter (fun n => decide (n.advisor = adv))).map
    (specCascadePenalty reality)).sum

/-- Spec wording for the tie-break key of a nomination against the placed
card: value distance, suit match, domain affinity. -/
def specKey (placed : Card) (n : Nomination) : Nat × Bool × Bool :=
  (claimDiff placed n, suitMatchB placed n, domainMatchB n)

/-- Spec wording for the ordered tie-break: key `a` strictly precedes key `b`
when it has a smaller value distance, or the same distance and a suit match
that `b` lacks, or the same distance and suit-match status and a domain
affinity that `b` lacks. -/
def keyBetter : Nat × Bool × Bool → Nat × Bool × Bool → Prop
  | (d1, s1, m1), (d2, s2, m2) =>
      d1 < d2 ∨ (d1 = d2 ∧ ((s1 = true ∧ s2 = false)
        ∨ (s1 = s2 ∧ m1 = true ∧ m2 = false)))

instance (a b : Nat × Bool × Bool) : Decidable (keyBetter a b) := by
  rcases a with ⟨d1, s1, m1⟩
  rcases b with ⟨d2, s2, m2⟩
  unfold keyBetter
  infer_instance

/-!
The observation encoder's persistent hex→index cache
(`ObservationEncoder._hex_to_idx` / `_idx_to_hex` and `get_hex_index`,
`encode_hex_mask` in observation.py).  The insertion-ordered dict is an
association list.
-/

/-- The mutable fields of `ObservationEncoder`. -/
structure EncoderState where
  hexToIdx : List (Hex × Nat)
  idxToHex : List Hex
  maxFrontier : Nat
deriving DecidableEq, Repr

/-- Dict lookup in the insertion-ordered `_hex_to_idx`. -/
def findIdx? : List (Hex × Nat) → Hex → Option Nat
  | [], _ => none
  | (k, v) :: rest, h => if k = h then some v else findIdx? rest h

/-- `ObservationEncoder.get_hex_index`: `-1` for `INVALID_HEX`; otherwise
look the hex up, assigning the next index (and mutating the cache) when it is
new, or returning `-1` on overflow past `max_frontier`. -/
def getHexIndex (st : EncoderState) (h : Hex) : Int × EncoderState :=
  if h = INVALID_HEX then (-1, st)
  else
    match findIdx? st.hexToIdx h with
    | some i => ((i : Int), st)
    | none =>
        let idx := st.idxToHex.length
        if st.maxFrontier ≤ idx then (-1, st)
        else ((idx : Int),
          { st with hexToIdx := st.hexToIdx ++ [(h, idx)],
                    idxToHex := st.idxToHex ++ [h] })

/-- The loop of `ObservationEncoder.encode_hex_mask`: for each hex get its
index and set the mask bit when the index lies in `[0, size)`. -/
def encodeHexMaskGo (size : Nat) :
    List Hex → (Nat → Bool) → EncoderState → (Nat → Bool) × EncoderState
  | [], m, st => (m, st)
  | h :: rest, m, st =>
      let r := getHexIndex st h
      let m' :=
        if 0 ≤ r.1 ∧ r.1 < (size : Int) then
          fun (j : Nat) => if (j : Int) = r.1 then true else m j
        else m
      encodeHexMaskGo size rest m' r.2

/-- `ObservationEncoder.encode_hex_mask(hexes, size)`: a fresh zero mask
filled by the loop (the `np` vector is modelled as its indicator function). -/
def encodeHexMask (st : EncoderState) (hexes : List Hex) (size : Nat) :
    (Nat → Bool) × EncoderState :=
  encodeHexMaskGo size hexes (fun _ => false) st

/-- Proof-side decomposition of `encodeHexMaskGo`: the sequence of indices
returned by the successive `getHexIndex` calls, with the final cache state. -/
def runIdx : List Hex → EncoderState → List Int × EncoderState
  | [], st => ([], st)
  | h :: rest, st =>
      let r := getHexIndex st h
      let rr := runIdx rest r.2
      (r.1 :: rr.1, rr.2)

/-- Set one (range-checked) mask bit. -/
def applyMaskBit (size : Nat) (m : Nat → Bool) (i : Int) : Nat → Bool :=
  if 0 ≤ i ∧ i < (size : Int) then
    fun (j : Nat) => if (j : Int) = i then true else m j
  else m

/-- Set the mask bits of an index sequence in order. -/
def setMaskBits (size : Nat) (idxs : List Int) (m : Nat → Bool) : Nat → Bool :=
  idxs.foldl (applyMaskBit size) m

/-!
Concrete sample data for the witness and counterexample theorems.
-/

/-- The Ace of Hearts fixed on the town centre (`make_card(Suit.HEARTS, "A")`). -/
def centerCard : Card := make_card Suit.hearts 12

/-- A small concrete reality map: the town centre plus three frontier tiles,
one of them a mine. -/
def sampleReality : Hex → Option Card := fun h =>
  if h = ((0 : Int), (0 : Int), (0 : Int)) then some centerCard
  else if h = ((1 : Int), (-1 : Int), (0 : Int)) then some (make_card Suit.spades 0)
  else if h = ((1 : Int), (0 : Int), (-1 : Int)) then some (make_card Suit.hearts 7)
  else if h = ((0 : Int), (1 : Int), (-1 : Int)) then some (make_card Suit.diamonds 3)
  else none

/-- A nomination of the mine hex with a (lying) Hearts claim. -/
def sampleNomMine : Nomination :=
  { hex := ((1 : Int), (-1 : Int), (0 : Int)),
    claim := make_card Suit.hearts 3, advisor := .industry }

/-- A nomination of a safe Hearts hex with an honest Hearts claim. -/
def sampleNomSafe : Nomination :=
  { hex := ((1 : Int), (0 : Int), (-1 : Int)),
    claim := make_card Suit.hearts 7, advisor := .urbanist }

/-- A concrete PLACE-phase state with a four-card hand and two outstanding
nominations. -/
def sampleState : GameState :=
  { phase := .PLACE, subPhase := .ready, turn := 0, isTerminal := false,
    scores := ⟨0, 0, 0⟩, turnRewards := ⟨0, 0, 0⟩,
    hand := [make_card Suit.hearts 5, make_card Suit.diamonds 2,
             make_card Suit.spades 9, make_card Suit.hearts 0],
    revealedIndices := [0, 1], deck := [], discard := [],
    builtHexes := [((0 : Int), (0 : Int), (0 : Int))],
    reality := sampleReality,
    revealedHexes := [((0 : Int), (0 : Int), (0 : Int))],
    mayorVerifiedHexes := [],
    industryCommits := [sampleNomMine], urbanistCommits := [sampleNomSafe],
    industryTray := [], urbanistTray := [],
    nominations := [sampleNomMine, sampleNomSafe],
    pendingDraws := 0, controlMode := .NONE, forcedSuitConfig := none,
    forcedHexUrb := none, forcedHexInd := none, controlRevealedHex := none,
    turnHistory := [], facilitiesHearts := 1, facilitiesDiamonds := 0,
    cityComplete := false, mayorHitMine := false, maxFrontier := 50 }

/-- A concrete chance-node state (four pending draws). -/
def sampleChanceState : GameState :=
  { sampleState with
      phase := .DRAW
      subPhase := .drawing
      pendingDraws := 4
      hand := []
      nominations := [] }

/-- The state after building hand card 0 on nomination 1 (the safe Hearts
hex) of `sampleState`. -/
def c4Result : GameState :=
  (applyPlace sampleState ((encodeBuild 0 1 : Nat) : Int)).getD sampleState

/-- Two identical Spade claims on the same safe hex, from the two different
advisors (for claim C7). -/
def spadeNomInd : Nomination :=
  { hex := ((1 : Int), (0 : Int), (-1 : Int)),
    claim := make_card Suit.spades 3, advisor := .industry }

/-- Companion urbanist nomination with the identical Spade claim. -/
def spadeNomUrb : Nomination :=
  { hex := ((1 : Int), (0 : Int), (-1 : Int)),
    claim := make_card Suit.spades 3, advisor := .urbanist }

/-- An empty encoder cache with the default frontier cap. -/
def sampleEncoder : EncoderState :=
  { hexToIdx := [], idxToHex := [], maxFrontier := 50 }

/-!
Claim theorems.
-/

/-- Claim C2: for every representable domain action in each of the five
contiguous action-ID ranges (REVEAL, CONTROL, COMMIT, BUILD, CHANCE),
decoding the encoded action ID recovers exactly the original domain action,
and the BUILD sub-range and the "verify instead of build" sub-range are
disjoint (the verify block [2506, 2556) lies entirely below
ACTION_BUILD_BASE = 4506, and no verify ID collides with a BUILD ID). -/
theorem action_codec_roundtrip :
    (∀ i : Fin ACTION_REVEAL_COUNT, decodeReveal (encodeReveal i.val) = i.val)
    ∧ decodeControl (encodeControl .suitA) = some .suitA
    ∧ decodeControl (encodeControl .suitB) = some .suitB
    ∧ (∀ u i : Fin MAX_FRONTIER_SIZE,
        decodeControl (encodeControl (.hexPair u.val i.val))
          = some (.hexPair u.val i.val))
    ∧ (∀ hx : Fin MAX_FRONTIER_SIZE, ∀ c : Fin NUM_CARDS,
        decodeCommit (encodeCommit hx.val c.val) = (hx.val, c.val))
    ∧ (∀ ci ni : Fin 4, decodeBuild (encodeBuild ci.val ni.val) = (ci.val, ni.val))
    ∧ (∀ c : Fin NUM_CARDS, decodeChance (encodeChance c.val) = c.val)
    ∧ ACTION_CONTROL_REVEAL_BASE + ACTION_CONTROL_REVEAL_COUNT ≤ ACTION_BUILD_BASE
    ∧ (∀ v : Fin ACTION_CONTROL_REVEAL_COUNT, ∀ ci ni : Fin 4,
        encodeVerify v.val ≠ encodeBuild ci.val ni.val) := by
  refine ⟨?_, rfl, rfl, ?_, ?_, ?_, ?_, by decide, ?_⟩
  · intro i
    simp [decodeReveal, encodeReveal, ACTION_REVEAL_BASE]
  · intro u i
    have hu := u.isLt
    have hi := i.isLt
    simp only [MAX_FRONTIER_SIZE] at hu hi
    simp only [encodeControl, decodeControl, ACTION_CONTROL_HEX_BASE,
      ACTION_CONTROL_SUIT_A, ACTION_CONTROL_SUIT_B, ACTION_CONTROL_BASE,
      ACTION_REVEAL_COUNT, MAX_FRONTIER_SIZE]
    rw [if_neg (by omega), if_neg (by omega), if_pos (by omega)]
    simp only [Option.some.injEq, ControlAction.hexPair.injEq]
    omega
  · intro hx c
    have h1 := hx.isLt
    have h2 := c.isLt
    simp only [MAX_FRONTIER_SIZE, NUM_CARDS, NUM_SUITS, NUM_RANKS] at h1 h2
    simp only [decodeCommit, encodeCommit, NUM_CARDS, NUM_SUITS, NUM_RANKS,
      Prod.mk.injEq]
    omega
  · intro ci ni
    have h1 := ci.isLt
    have h2 := ni.isLt
    simp only [decodeBuild, encodeBuild, MAX_NOMINATIONS,
      NOMINATIONS_PER_ADVISOR, Prod.mk.injEq]
    omega
  · intro c
    simp [decodeChance, encodeChance]
  · intro v ci ni
    have h1 := v.isLt
    have h2 := ci.isLt
    have h3 := ni.isLt
    simp only [ACTION_CONTROL_REVEAL_COUNT, MAX_FRONTIER_SIZE] at h1
    simp only [encodeVerify, encodeBuild, ACTION_CONTROL_REVEAL_BASE,
      ACTION_BUILD_BASE, ACTION_COMMIT_BASE, ACTION_CONTROL_COUNT,
      ACTION_CONTROL_HEX_COUNT, ACTION_CONTROL_BASE, ACTION_REVEAL_COUNT,
      ACTION_COMMIT_COUNT, MAX_FRONTIER_ACTIONS, MAX_FRONTIER_SIZE,
      NUM_CARDS, NUM_SUITS, NUM_RANKS, MAX_NOMINATIONS,
      NOMINATIONS_PER_ADVISOR]
    omega

/-!
Helper lemmas about the scoring primitives.
-/

theorem Scores.get_addAdvisor_same (s : Scores) (a : Advisor) (d : Int) :
    (s.addAdvisor a d).get a = s.get a + d := by
  cases a <;> rfl

theorem Scores.get_addAdvisor_other (s : Scores) (a b : Advisor) (d : Int)
    (h : a ≠ b) : (s.addAdvisor a d).get b = s.get b := by
  cases a <;> cases b <;> first | rfl | exact absurd rfl h

theorem Scores.mayor_addAdvisor (s : Scores) (a : Advisor) (d : Int) :
    (s.addAdvisor a d).mayor = s.mayor := by
  cases a <;> rfl

theorem Scores.get_mayorUpdate (s : Scores) (v : Int) (a : Advisor) :
    ({ s with mayor := v } : Scores).get a = s.get a := by
  cases a <;> rfl

theorem find?_filter {α : Type} (l : List α) (p q : α → Bool) :
    (l.filter p).find? q = l.find? (fun a => p a && q a) := by
  induction l with
  | nil => rfl
  | cons x xs ih =>
      by_cases hp : p x
      · by_cases hq : q x
        · simp [List.filter_cons, hp, List.find?_cons, hq]
        · simp only [List.filter_cons, hp, if_pos, List.find?_cons]
          simp [hq, ih]
      · simp only [List.filter_cons, List.find?_cons]
        simp [hp, ih]

theorem scoreMineNoms_get (l : List Nomination) (sc : Scores)
    (seen : List Advisor) (adv : Advisor) :
    (scoreMineNoms l sc seen).get adv
      = sc.get adv
        + (if adv ∈ seen then 0
           else
             match l.find? (fun n => decide (n.advisor = adv)) with
             | some n => if n.claim.suit = Suit.spades then 1 else -3
             | none => 0) := by
  induction l generalizing sc seen with
  | nil => simp [scoreMineNoms]
  | cons n rest ih =>
      by_cases hseen : n.advisor ∈ seen
      · rw [scoreMineNoms, if_pos hseen, ih]
        by_cases hadv : adv ∈ seen
        · simp [hadv]
        · have hne : ¬ n.advisor = adv := fun h => hadv (h ▸ hseen)
          simp [hadv, List.find?_cons, hne]
      · rw [scoreMineNoms, if_neg hseen, ih]
        by_cases heq : n.advisor = adv
        · subst heq
          have hmem : n.advisor ∈ seen ++ [n.advisor] := by simp
          rw [if_pos hmem, if_neg hseen]
          by_cases hsuit : n.claim.suit = Suit.spades
          · simp [List.find?_cons, hsuit, Scores.get_addAdvisor_same]
          · simp [List.find?_cons, hsuit, Scores.get_addAdvisor_same]
        · have hmem : (adv ∈ seen ++ [n.advisor]) ↔ adv ∈ seen := by
            simp only [List.mem_append, List.mem_singleton, or_iff_left_iff_imp]
            intro h
            exact absurd h.symm heq
          rw [List.find?_cons]
          have hdec : (decide (n.advisor = adv)) = false := by
            simp [heq]
          rw [hdec]
          by_cases hadv : adv ∈ seen
          · simp only [hmem, hadv, if_pos]
            by_cases hsuit : n.claim.suit = Suit.spades <;>
              simp [hsuit, Scores.get_addAdvisor_other _ _ _ _ heq]
          · simp only [hmem, hadv, if_neg, not_false_iff]
            by_cases hsuit : n.claim.suit = Suit.spades <;>
              simp [hsuit, Scores.get_addAdvisor_other _ _ _ _ heq]

theorem scoreMineNoms_mayor (l : List Nomination) (sc : Scores)
    (seen : List Advisor) :
    (scoreMineNoms l sc seen).mayor = sc.mayor := by
  induction l generalizing sc seen with
  | nil => rfl
  | cons n rest ih =>
      rw [scoreMineNoms]
      by_cases hseen : n.advisor ∈ seen
      · rw [if_pos hseen, ih]
      · rw [if_neg hseen, ih]
        by_cases hsuit : n.claim.suit = Suit.spades <;>
          simp [hsuit, Scores.mayor_addAdvisor]

theorem deathReveal_get (r : Hex → Option Card) (l : List Nomination)
    (sc : Scores) (adv : Advisor) :
    (deathRevealPenalty r l sc).get adv
      = sc.get adv + specCascadeDelta r l adv := by
  induction l generalizing sc with
  | nil => simp [deathRevealPenalty, specCascadeDelta]
  | cons n rest ih =>
      have hstep : deathRevealPenalty r (n :: rest) sc
          = deathRevealPenalty r rest
              (if (r n.hex).map Card.suit = some Suit.spades
                  ∧ ¬ n.claim.suit = Suit.spades
               then sc.addAdvisor n.advisor (-3)
               else if ¬ (r n.hex).map Card.suit = some Suit.spades
                  ∧ n.claim.suit = Suit.spades
               then sc.addAdvisor n.advisor (-2) else sc) := rfl
      rw [hstep, ih]
      by_cases hadv : n.advisor = adv
      · subst hadv
        have hhead : specCascadeDelta r (n :: rest) n.advisor
            = specCascadePenalty r n + specCascadeDelta r rest n.advisor := by
          simp [specCascadeDelta, List.filter_cons]
        rw [hhead]
        by_cases h3 : (r n.hex).map Card.suit = some Suit.spades
            ∧ ¬ n.claim.suit = Suit.spades
        · rw [if_pos h3, Scores.get_addAdvisor_same, specCascadePenalty,
            if_pos h3]
          ring
        · rw [if_neg h3]
          by_cases h2 : ¬ (r n.hex).map Card.suit = some Suit.spades
              ∧ n.claim.suit = Suit.spades
          · rw [if_pos h2, Scores.get_addAdvisor_same, specCascadePenalty,
              if_neg h3, if_pos h2]
            ring
          · rw [if_neg h2, specCascadePenalty, if_neg h3, if_neg h2]
            ring
      · have hhead : specCascadeDelta r (n :: rest) adv
            = specCascadeDelta r rest adv := by
          simp [specCascadeDelta, List.filter_cons, hadv]
        rw [hhead]
        by_cases h3 : (r n.hex).map Card.suit = some Suit.spades
            ∧ ¬ n.claim.suit = Suit.spades
        · rw [if_pos h3, Scores.get_addAdvisor_other _ _ _ _ hadv]
        · rw [if_neg h3]
          by_cases h2 : ¬ (r n.hex).map Card.suit = some Suit.spades
              ∧ n.claim.suit = Suit.spades
          · rw [if_pos h2, Scores.get_addAdvisor_other _ _ _ _ hadv]
          · rw [if_neg h2]

theorem deathReveal_mayor (r : Hex → Option Card) (l : List Nomination)
    (sc : Scores) :
    (deathRevealPenalty r l sc).mayor = sc.mayor := by
  induction l generalizing sc with
  | nil => rfl
  | cons n rest ih =>
      have hstep : deathRevealPenalty r (n :: rest) sc
          = deathRevealPenalty r rest
              (if (r n.hex).map Card.suit = some Suit.spades
                  ∧ ¬ n.claim.suit = Suit.spades
               then sc.addAdvisor n.advisor (-3)
               else if ¬ (r n.hex).map Card.suit = some Suit.spades
                  ∧ n.claim.suit = Suit.spades
               then sc.addAdvisor n.advisor (-2) else sc) := rfl
      rw [hstep, ih]
      by_cases h3 : (r n.hex).map Card.suit = some Suit.spades
          ∧ ¬ n.claim.suit = Suit.spades
      · rw [if_pos h3, Scores.mayor_addAdvisor]
      · rw [if_neg h3]
        by_cases h2 : ¬ (r n.hex).map Card.suit = some Suit.spades
            ∧ n.claim.suit = Suit.spades
        · rw [if_pos h2, Scores.mayor_addAdvisor]
        · rw [if_neg h2]

/-!
Helper lemmas about fog reveal and the dense-reward bonuses.
-/

theorem revealStep_preserves (acc : RevealResult) (adj h : Hex)
    (hs : (acc.reality h).isSome) :
    (revealStep acc adj).reality h = acc.reality h := by
  unfold revealStep
  cases hadj : acc.reality adj with
  | some c => simp [hadj]
  | none =>
      simp only [hadj]
      by_cases heq : h = adj
      · subst heq
        rw [hadj] at hs
        simp at hs
      · simp [heq]

theorem revealFold_preserves (l : List Hex) (acc : RevealResult) (h : Hex)
    (hs : (acc.reality h).isSome) :
    (l.foldl revealStep acc).reality h = acc.reality h := by
  induction l generalizing acc with
  | nil => rfl
  | cons x xs ih =>
      rw [List.foldl_cons]
      have h1 := revealStep_preserves acc x h hs
      rw [ih (revealStep acc x) (by rw [h1]; exact hs), h1]

theorem revealAround_preserves (c : Hex) (rv : RevealResult) (h : Hex)
    (hs : (rv.reality h).isSome) :
    (revealAround c rv).reality h = rv.reality h := by
  unfold revealAround
  exact revealFold_preserves _ _ _ hs

theorem mineDodge_fold_ge (chosenHex : Hex) (r : Hex → Option Card) :
    ∀ (l : List Nomination) (b : ℚ),
      b ≤ l.foldl
        (fun b n =>
          if n.hex = chosenHex then b
          else if ¬ (r n.hex).map Card.suit = some Suit.spades then b
          else if ¬ n.claim.suit = Suit.spades then b + 10 else b + 2) b := by
  intro l
  induction l with
  | nil => intro b; simp
  | cons n rest ih =>
      intro b
      rw [List.foldl_cons]
      refine le_trans ?_ (ih _)
      by_cases h1 : n.hex = chosenHex
      · rw [if_pos h1]
      · rw [if_neg h1]
        by_cases h2 : ¬ (r n.hex).map Card.suit = some Suit.spades
        · rw [if_pos h2]
        · rw [if_neg h2]
          by_cases h3 : ¬ n.claim.suit = Suit.spades
          · rw [if_pos h3]; linarith
          · rw [if_neg h3]; linarith

theorem mineDodgeBonus_nonneg (chosenHex : Hex) (r : Hex → Option Card)
    (l : List Nomination) : 0 ≤ mineDodgeBonus chosenHex r l :=
  mineDodge_fold_ge chosenHex r l 0

theorem mineDodge_fold_congr (chosenHex : Hex) (r r' : Hex → Option Card) :
    ∀ (l : List Nomination) (b : ℚ), (∀ n ∈ l, r' n.hex = r n.hex) →
      l.foldl
        (fun b n =>
          if n.hex = chosenHex then b
          else if ¬ (r' n.hex).map Card.suit = some Suit.spades then b
          else if ¬ n.claim.suit = Suit.spades then b + 10 else b + 2) b
        = l.foldl
        (fun b n =>
          if n.hex = chosenHex then b
          else if ¬ (r n.hex).map Card.suit = some Suit.spades then b
          else if ¬ n.claim.suit = Suit.spades then b + 10 else b + 2) b := by
  intro l
  induction l with
  | nil => intro b _; rfl
  | cons n rest ih =>
      intro b hag
      have hn := hag n (List.mem_cons_self n rest)
      have hrest : ∀ m ∈ rest, r' m.hex = r m.hex :=
        fun m hm => hag m (List.mem_cons_of_mem n hm)
      rw [List.foldl_cons, List.foldl_cons, hn, ih _ hrest]

theorem mineDodgeBonus_congr (chosenHex : Hex) (r r' : Hex → Option Card)
    (l : List Nomination) (hag : ∀ n ∈ l, r' n.hex = r n.hex) :
    mineDodgeBonus chosenHex r' l = mineDodgeBonus chosenHex r l :=
  mineDodge_fold_congr chosenHex r r' l 0 hag

theorem specCascadeDelta_congr (r r' : Hex → Option Card)
    (l : List Nomination) (adv : Advisor)
    (hag : ∀ n ∈ l, r' n.hex = r n.hex) :
    specCascadeDelta r' l adv = specCascadeDelta r l adv := by
  unfold specCascadeDelta
  have hmap : ∀ n ∈ l.filter (fun n => decide (n.advisor = adv)),
      specCascadePenalty r' n = specCascadePenalty r n := by
    intro n hn
    have := hag n (List.mem_of_mem_filter hn)
    unfold specCascadePenalty
    rw [this]
  rw [List.map_congr_left hmap]

/-!
Characterizations of `calcTurnScores` and of `applyPlace` on a valid BUILD.
-/

theorem calcTurnScores_mine_scores (placed : Card) (chosenHex : Hex)
    (cn : Nomination) (reality : Hex → Option Card) (noms : List Nomination)
    (st : ScoringState) (rc : Card)
    (hr : reality chosenHex = some rc) (hmine : rc.suit = Suit.spades)
    (head : Nomination) (rest : List Nomination)
    (hf : noms.filter (fun n => decide (n.hex = chosenHex)) = head :: rest) :
    (calcTurnScores placed chosenHex cn reality noms st).scores
      = scoreMineNoms (head :: rest) st.scores [] := by
  unfold calcTurnScores
  rw [hf, hr]
  simp only [Option.map_some', hmine]
  simp

theorem calcTurnScores_reward_formula (placed : Card) (chosenHex : Hex)
    (cn : Nomination) (reality : Hex → Option Card) (noms : List Nomination)
    (st : ScoringState)
    (head : Nomination) (rest : List Nomination)
    (hf : noms.filter (fun n => decide (n.hex = chosenHex)) = head :: rest) :
    (calcTurnScores placed chosenHex cn reality noms st).turnRewards.industry
        = (((calcTurnScores placed chosenHex cn reality noms st).scores.industry
              - st.scores.industry : Int) : ℚ)
          - ((((calcTurnScores placed chosenHex cn reality noms st).scores.mayor
                - st.scores.mayor : Int) : ℚ)
             + (((calcTurnScores placed chosenHex cn reality noms st).scores.urbanist
                - st.scores.urbanist : Int) : ℚ)) / 2
    ∧ (calcTurnScores placed chosenHex cn reality noms st).turnRewards.urbanist
        = (((calcTurnScores placed chosenHex cn reality noms st).scores.urbanist
              - st.scores.urbanist : Int) : ℚ)
          - ((((calcTurnScores placed chosenHex cn reality noms st).scores.mayor
                - st.scores.mayor : Int) : ℚ)
             + (((calcTurnScores placed chosenHex cn reality noms st).scores.industry
                - st.scores.industry : Int) : ℚ)) / 2
    ∧ (¬ (reality chosenHex).map Card.suit = some Suit.spades →
        (calcTurnScores placed chosenHex cn reality noms st).turnRewards.mayor
          = (((calcTurnScores placed chosenHex cn reality noms st).scores.mayor
                - st.scores.mayor : Int) : ℚ)
            - ((((calcTurnScores placed chosenHex cn reality noms st).scores.industry
                  - st.scores.industry : Int) : ℚ)
               + (((calcTurnScores placed chosenHex cn reality noms st).scores.urbanist
                  - st.scores.urbanist : Int) : ℚ)) / 2
            + 10)
    ∧ ((reality chosenHex).map Card.suit = some Suit.spades →
        (calcTurnScores placed chosenHex cn reality noms st).turnRewards.mayor
          = -10) := by
  by_cases hC : (reality chosenHex).map Card.suit = some Suit.spades
  · unfold calcTurnScores
    rw [hf]
    simp only [hC]
    refine ⟨by simp, by simp, fun h => absurd trivial h, fun _ => by simp⟩
  · unfold calcTurnScores
    rw [hf]
    simp only [hC]
    refine ⟨by simp, by simp, fun _ => by simp, fun h => h.elim⟩

theorem applyPlace_valid_build (s : GameState) (ci ni : Nat)
    (hci : ci < s.hand.length) (hni4 : ni < MAX_NOMINATIONS)
    (hniLen : ni < s.nominations.length) :
    applyPlace s ((encodeBuild ci ni : Nat) : Int)
      = some (buildStep s (s.nominations.get ⟨ni, hniLen⟩)
          (s.hand.get ⟨ci, hci⟩) (ci : Int)) := by
  have hni4' : ni < 4 := by
    simpa [MAX_NOMINATIONS, NOMINATIONS_PER_ADVISOR] using hni4
  have hrange : ¬ ((ACTION_CONTROL_REVEAL_BASE : Int) ≤ ((encodeBuild ci ni : Nat) : Int)
      ∧ ((encodeBuild ci ni : Nat) : Int) < (ACTION_COMMIT_BASE : Int)) := by
    simp only [encodeBuild, ACTION_BUILD_BASE, ACTION_COMMIT_BASE,
      ACTION_CONTROL_REVEAL_BASE, ACTION_CONTROL_COUNT, ACTION_CONTROL_HEX_COUNT,
      ACTION_CONTROL_BASE, ACTION_REVEAL_COUNT, ACTION_COMMIT_COUNT,
      MAX_FRONTIER_ACTIONS, MAX_FRONTIER_SIZE, NUM_CARDS, NUM_SUITS, NUM_RANKS,
      MAX_NOMINATIONS, NOMINATIONS_PER_ADVISOR]
    push_cast
    omega
  have hsub : ((encodeBuild ci ni : Nat) : Int) - (ACTION_BUILD_BASE : Int)
      = ((ci * MAX_NOMINATIONS + ni : Nat) : Int) := by
    simp only [encodeBuild]
    push_cast
    ring
  have hdiv : Int.fdiv ((ci * MAX_NOMINATIONS + ni : Nat) : Int) (MAX_NOMINATIONS : Int)
      = (ci : Int) := by
    rw [← Int.ofNat_fdiv]
    norm_cast
    simp only [MAX_NOMINATIONS, NOMINATIONS_PER_ADVISOR]
    omega
  have hmod : Int.emod ((ci * MAX_NOMINATIONS + ni : Nat) : Int) (MAX_NOMINATIONS : Int)
      = (ni : Int) := by
    show ((ci * MAX_NOMINATIONS + ni : Nat) : Int) % ((MAX_NOMINATIONS : Nat) : Int)
        = (ni : Int)
    rw [← Int.ofNat_emod]
    norm_cast
    simp only [MAX_NOMINATIONS, NOMINATIONS_PER_ADVISOR]
    omega
  unfold applyPlace
  rw [if_neg hrange]
  simp only [hsub, hdiv, hmod]
  rw [if_neg (by omega), if_neg (by omega)]
  have hget : s.nominations.get? ((ni : Int)).toNat = some (s.nominations.get ⟨ni, hniLen⟩) := by
    simp [List.get?_eq_get, hniLen]
  have hpy : pyListGet s.hand (ci : Int) = some (s.hand.get ⟨ci, hci⟩) := by
    unfold pyListGet pyIdx
    rw [if_pos (by positivity), if_pos (by omega)]
    simp [List.get?_eq_get, hci]
  rw [hget, hpy]

theorem buildStep_mine (s : GameState) (nom : Nomination) (card : Card)
    (ci : Int) (rc : Card)
    (hr : s.reality nom.hex = some rc) (hmine : rc.suit = Suit.spades)
    (hnm : nom ∈ s.nominations)
    (hnoms : ∀ n ∈ s.nominations, (s.reality n.hex).isSome) :
    (buildStep s nom card ci).isTerminal = true
    ∧ (buildStep s nom card ci).mayorHitMine = true
    ∧ (buildStep s nom card ci).scores.mayor = s.scores.mayor
    ∧ (∀ adv : Advisor,
        (buildStep s nom card ci).scores.get adv
          = s.scores.get adv + specMineHexDelta nom.hex s.nominations adv
            + specCascadeDelta s.reality s.nominations adv)
    ∧ (buildStep s nom card ci).turnRewards.mayor = -10 := by
  have hrr : (revealAround nom.hex
      ⟨s.revealedHexes, s.reality, s.deck, s.discard⟩).reality nom.hex
        = some rc := by
    rw [revealAround_preserves _ _ _
      (by show (s.reality nom.hex).isSome = true; rw [hr]; rfl)]
    exact hr
  have hag : ∀ n ∈ s.nominations,
      (revealAround nom.hex
        ⟨s.revealedHexes, s.reality, s.deck, s.discard⟩).reality n.hex
        = s.reality n.hex := by
    intro n hn
    exact revealAround_preserves _ _ _ (hnoms n hn)
  have hne : s.nominations.filter (fun n => decide (n.hex = nom.hex)) ≠ [] := by
    apply List.ne_nil_of_mem (a := nom)
    rw [List.mem_filter]
    exact ⟨hnm, by simp⟩
  obtain ⟨head, rest, hf⟩ := List.exists_cons_of_ne_nil hne
  simp only [buildStep]
  split
  case isFalse hcond =>
      exact absurd (by rw [hrr]; simp [hmine]) hcond
  case isTrue hcond =>
      refine ⟨rfl, rfl, ?_, ?_, ?_⟩
      · rw [deathReveal_mayor,
          calcTurnScores_mine_scores _ _ _ _ _ _ rc hrr hmine head rest hf,
          scoreMineNoms_mayor]
      · intro adv
        rw [deathReveal_get,
          calcTurnScores_mine_scores _ _ _ _ _ _ rc hrr hmine head rest hf,
          scoreMineNoms_get, specCascadeDelta_congr _ _ _ _ hag]
        simp only [List.not_mem_nil, if_neg, not_false_iff]
        rw [← hf, find?_filter]
        rfl
      · have := (calcTurnScores_reward_formula card nom.hex nom
          (revealAround nom.hex
            ⟨s.revealedHexes, s.reality, s.deck, s.discard⟩).reality
          s.nominations ⟨s.scores, s.turnRewards⟩ head rest hf).2.2.2
        exact this (by rw [hrr]; simp [hmine])


theorem dodgeUpdate_effects (chosenHex : Hex) (s : GameState) :
    (dodgeUpdate chosenHex s).scores = s.scores
    ∧ (dodgeUpdate chosenHex s).turnRewards.industry = s.turnRewards.industry
    ∧ (dodgeUpdate chosenHex s).turnRewards.urbanist = s.turnRewards.urbanist
    ∧ (dodgeUpdate chosenHex s).turnRewards.mayor
        = s.turnRewards.mayor + mineDodgeBonus chosenHex s.reality s.nominations := by
  unfold dodgeUpdate
  by_cases h : 0 < mineDodgeBonus chosenHex s.reality s.nominations
  · rw [if_pos h]
    exact ⟨rfl, rfl, rfl, rfl⟩
  · rw [if_neg h]
    have h0 : mineDodgeBonus chosenHex s.reality s.nominations = 0 :=
      le_antisymm (not_lt.mp h) (mineDodgeBonus_nonneg _ _ _)
    rw [h0]
    exact ⟨rfl, rfl, rfl, by ring⟩

theorem facilityUpdate_effects (rs : Option Suit) (s : GameState) :
    (facilityUpdate rs s).scores = s.scores
    ∧ (facilityUpdate rs s).turnRewards = s.turnRewards := by
  unfold facilityUpdate
  by_cases h1 : rs = some Suit.hearts
  · rw [if_pos h1]
    exact ⟨rfl, rfl⟩
  · rw [if_neg h1]
    by_cases h2 : rs = some Suit.diamonds
    · rw [if_pos h2]
      exact ⟨rfl, rfl⟩
    · rw [if_neg h2]
      exact ⟨rfl, rfl⟩

theorem cityFinish_effects (card : Card) (ci : Int) (s : GameState) :
    (cityFinish card ci s).scores = s.scores
    ∧ (cityFinish card ci s).turnRewards = s.turnRewards := by
  unfold cityFinish
  by_cases h : FACILITIES_TO_COMPLETE ≤ s.facilitiesHearts
      ∧ FACILITIES_TO_COMPLETE ≤ s.facilitiesDiamonds
  · rw [if_pos h]
    exact ⟨rfl, rfl⟩
  · rw [if_neg h]
    exact ⟨rfl, rfl⟩

theorem buildStep_nonMine (s : GameState) (nom : Nomination) (card : Card)
    (ci : Int) (rc : Card)
    (hr : s.reality nom.hex = some rc) (hsafe : ¬ rc.suit = Suit.spades)
    (hnm : nom ∈ s.nominations)
    (hnoms : ∀ n ∈ s.nominations, (s.reality n.hex).isSome) :
    (buildStep s nom card ci).turnRewards.industry
        = (((buildStep s nom card ci).scores.industry - s.scores.industry : Int) : ℚ)
          - ((((buildStep s nom card ci).scores.mayor - s.scores.mayor : Int) : ℚ)
             + (((buildStep s nom card ci).scores.urbanist - s.scores.urbanist : Int) : ℚ)) / 2
    ∧ (buildStep s nom card ci).turnRewards.urbanist
        = (((buildStep s nom card ci).scores.urbanist - s.scores.urbanist : Int) : ℚ)
          - ((((buildStep s nom card ci).scores.mayor - s.scores.mayor : Int) : ℚ)
             + (((buildStep s nom card ci).scores.industry - s.scores.industry : Int) : ℚ)) / 2
    ∧ (buildStep s nom card ci).turnRewards.mayor
        = (((buildStep s nom card ci).scores.mayor - s.scores.mayor : Int) : ℚ)
          - ((((buildStep s nom card ci).scores.industry - s.scores.industry : Int) : ℚ)
             + (((buildStep s nom card ci).scores.urbanist - s.scores.urbanist : Int) : ℚ)) / 2
          + 10 + mineDodgeBonus nom.hex s.reality s.nominations := by
  have hrr : (revealAround nom.hex
      ⟨s.revealedHexes, s.reality, s.deck, s.discard⟩).reality nom.hex
        = some rc := by
    rw [revealAround_preserves _ _ _
      (by show (s.reality nom.hex).isSome = true; rw [hr]; rfl)]
    exact hr
  have hag : ∀ n ∈ s.nominations,
      (revealAround nom.hex
        ⟨s.revealedHexes, s.reality, s.deck, s.discard⟩).reality n.hex
        = s.reality n.hex := by
    intro n hn
    exact revealAround_preserves _ _ _ (hnoms n hn)
  have hne : s.nominations.filter (fun n => decide (n.hex = nom.hex)) ≠ [] := by
    apply List.ne_nil_of_mem (a := nom)
    rw [List.mem_filter]
    exact ⟨hnm, by simp⟩
  obtain ⟨head, rest, hf⟩ := List.exists_cons_of_ne_nil hne
  have hnotmine : ¬ ((revealAround nom.hex
      ⟨s.revealedHexes, s.reality, s.deck, s.discard⟩).reality nom.hex).map
        Card.suit = some Suit.spades := by
    rw [hrr]
    simp [hsafe]
  have hform := calcTurnScores_reward_formula card nom.hex nom
    (revealAround nom.hex
      ⟨s.revealedHexes, s.reality, s.deck, s.discard⟩).reality
    s.nominations ⟨s.scores, s.turnRewards⟩ head rest hf
  have hdodge := mineDodgeBonus_congr nom.hex s.reality
    (revealAround nom.hex
      ⟨s.revealedHexes, s.reality, s.deck, s.discard⟩).reality
    s.nominations hag
  simp only [buildStep]
  split
  case isTrue hcond => exact absurd hcond hnotmine
  case isFalse hcond =>
      rw [(cityFinish_effects _ _ _).1, (facilityUpdate_effects _ _).1,
        (cityFinish_effects _ _ _).2, (facilityUpdate_effects _ _).2]
      rw [(dodgeUpdate_effects _ _).1]
      refine ⟨?_, ?_, ?_⟩
      · rw [(dodgeUpdate_effects _ _).2.1]
        exact hform.1
      · rw [(dodgeUpdate_effects _ _).2.2.1]
        exact hform.2.1
      · rw [(dodgeUpdate_effects _ _).2.2.2]
        exact congr_arg₂ (fun x y => x + y) (hform.2.2.1 hnotmine) hdodge

theorem buildStep_mine_flags (s : GameState) (nom : Nomination) (card : Card)
    (ci : Int) (rc : Card)
    (hr : s.reality nom.hex = some rc) (hmine : rc.suit = Suit.spades)
    (hnm : nom ∈ s.nominations) :
    (buildStep s nom card ci).isTerminal = true
    ∧ (buildStep s nom card ci).mayorHitMine = true
    ∧ (buildStep s nom card ci).scores.mayor = s.scores.mayor := by
  have hrr : (revealAround nom.hex
      ⟨s.revealedHexes, s.reality, s.deck, s.discard⟩).reality nom.hex
        = some rc := by
    rw [revealAround_preserves _ _ _
      (by show (s.reality nom.hex).isSome = true; rw [hr]; rfl)]
    exact hr
  have hne : s.nominations.filter (fun n => decide (n.hex = nom.hex)) ≠ [] := by
    apply List.ne_nil_of_mem (a := nom)
    rw [List.mem_filter]
    exact ⟨hnm, by simp⟩
  obtain ⟨head, rest, hf⟩ := List.exists_cons_of_ne_nil hne
  simp only [buildStep]
  split
  case isFalse hcond =>
      exact absurd (by rw [hrr]; simp [hmine]) hcond
  case isTrue hcond =>
      refine ⟨rfl, rfl, ?_⟩
      rw [deathReveal_mayor,
        calcTurnScores_mine_scores _ _ _ _ _ _ rc hrr hmine head rest hf,
        scoreMineNoms_mayor]

theorem Scores.get_ite_mayor (C : Prop) [Decidable C] (X : Scores) (v : Int)
    (adv : Advisor) :
    (if C then ({ X with mayor := v } : Scores) else X).get adv = X.get adv := by
  by_cases h : C
  · rw [if_pos h, Scores.get_mayorUpdate]
  · rw [if_neg h]

/-- Claim C3: when a BUILD lands on a hex whose hidden reality suit is Spade,
every advisor who nominated that hex scores +1 if their claim suit was Spade
and −3 otherwise, and in addition the death-reveal cascade runs over every
currently outstanding nomination (not just the chosen hex), applying −3 to
each claimant whose non-Spade claim denied a mine and −2 to each claimant
whose Spade claim falsely cried mine, leaving honest claims unpenalized: each
advisor's final score is the initial score plus `specMineHexDelta` plus
`specCascadeDelta`, both written from the spec's wording. -/
theorem mine_build_advisor_scoring (s : GameState) (ci ni : Nat)
    (hci : ci < s.hand.length) (hni4 : ni < MAX_NOMINATIONS)
    (hniLen : ni < s.nominations.length) (rc : Card)
    (hr : s.reality (s.nominations.get ⟨ni, hniLen⟩).hex = some rc)
    (hmine : rc.suit = Suit.spades)
    (hnoms : ∀ n ∈ s.nominations, (s.reality n.hex).isSome) :
    ∃ t, applyPlace s ((encodeBuild ci ni : Nat) : Int) = some t
      ∧ ∀ adv : Advisor,
          t.scores.get adv
            = s.scores.get adv
              + specMineHexDelta (s.nominations.get ⟨ni, hniLen⟩).hex
                  s.nominations adv
              + specCascadeDelta s.reality s.nominations adv := by
  refine ⟨_, applyPlace_valid_build s ci ni hci hni4 hniLen, ?_⟩
  exact (buildStep_mine s _ _ _ rc hr hmine
    (List.get_mem _ _ _) hnoms).2.2.2.1

/-- Claim C5: building on a Spade-reality hex makes `is_terminal()` true
immediately and sets the mine-loss flag `mayor_hit_mine`, and it does not,
by itself, set `returns()[mayor]` to any fixed penalty constant: the Mayor's
entry of `returns()` still reports the accumulated score, unchanged by the
mine hit. -/
theorem mine_build_terminal_returns (s : GameState) (ci ni : Nat)
    (hci : ci < s.hand.length) (hni4 : ni < MAX_NOMINATIONS)
    (hniLen : ni < s.nominations.length) (rc : Card)
    (hr : s.reality (s.nominations.get ⟨ni, hniLen⟩).hex = some rc)
    (hmine : rc.suit = Suit.spades) :
    ∃ t, applyPlace s ((encodeBuild ci ni : Nat) : Int) = some t
      ∧ t.isTerminal = true
      ∧ t.mayorHitMine = true
      ∧ t.scores.mayor = s.scores.mayor
      ∧ t.returns.get? 0 = some ((s.scores.mayor : Int) : ℚ) := by
  refine ⟨_, applyPlace_valid_build s ci ni hci hni4 hniLen, ?_⟩
  have h := buildStep_mine_flags s (s.nominations.get ⟨ni, hniLen⟩)
    (s.hand.get ⟨ci, hci⟩) (ci : Int) rc hr hmine (List.get_mem _ _ _)
  refine ⟨h.1, h.2.1, h.2.2, ?_⟩
  unfold GameState.returns
  rw [h.2.2]
  rfl

/-- Claim C4 (amended): every time a placement resolves, each role's turn
reward is fully recomputed (overwritten, not accumulated); the two advisors
get exactly their own score delta minus half the sum of the other two roles'
deltas, but the Mayor's reward is that formula plus a +10 survival bonus and
the mine-dodge bonus on a non-mine build, and is overwritten to −10 on a
mine build. -/
theorem turn_reward_recompute_amended (s : GameState) (ci ni : Nat)
    (hci : ci < s.hand.length) (hni4 : ni < MAX_NOMINATIONS)
    (hniLen : ni < s.nominations.length) (rc : Card)
    (hr : s.reality (s.nominations.get ⟨ni, hniLen⟩).hex = some rc)
    (hnoms : ∀ n ∈ s.nominations, (s.reality n.hex).isSome) :
    ∃ t, applyPlace s ((encodeBuild ci ni : Nat) : Int) = some t
      ∧ (¬ rc.suit = Suit.spades →
          t.turnRewards.industry
              = ((t.scores.industry - s.scores.industry : Int) : ℚ)
                - (((t.scores.mayor - s.scores.mayor : Int) : ℚ)
                   + ((t.scores.urbanist - s.scores.urbanist : Int) : ℚ)) / 2
          ∧ t.turnRewards.urbanist
              = ((t.scores.urbanist - s.scores.urbanist : Int) : ℚ)
                - (((t.scores.mayor - s.scores.mayor : Int) : ℚ)
                   + ((t.scores.industry - s.scores.industry : Int) : ℚ)) / 2
          ∧ t.turnRewards.mayor
              = ((t.scores.mayor - s.scores.mayor : Int) : ℚ)
                - (((t.scores.industry - s.scores.industry : Int) : ℚ)
                   + ((t.scores.urbanist - s.scores.urbanist : Int) : ℚ)) / 2
                + 10
                + mineDodgeBonus (s.nominations.get ⟨ni, hniLen⟩).hex
                    s.reality s.nominations)
      ∧ (rc.suit = Suit.spades → t.turnRewards.mayor = -10) := by
  refine ⟨_, applyPlace_valid_build s ci ni hci hni4 hniLen, ?_, ?_⟩
  · intro hsafe
    exact buildStep_nonMine s _ _ _ rc hr hsafe (List.get_mem _ _ _) hnoms
  · intro hmine
    exact (buildStep_mine s _ _ _ rc hr hmine
      (List.get_mem _ _ _) hnoms).2.2.2.2

/-- Claim C7: if both advisors nominated the chosen hex with an identical
Spade claim (same suit and same value) and the hex's reality is not a mine,
then both advisors are penalized −2 and no tie-break winner is scored for
that hex (each advisor's delta is exactly −2, with no winner bonus applied). -/
theorem identical_spade_false_alarm_penalty
    (placed : Card) (chosenHex : Hex) (cn : Nomination)
    (reality : Hex → Option Card) (noms : List Nomination) (st : ScoringState)
    (n1 n2 : Nomination)
    (hf : noms.filter (fun n => decide (n.hex = chosenHex)) = [n1, n2])
    (hadv : ¬ n1.advisor = n2.advisor)
    (hs1 : n1.claim.suit = Suit.spades)
    (hs2 : n1.claim.suit = n2.claim.suit)
    (hv : n1.claim.value = n2.claim.value)
    (hnm : ¬ (reality chosenHex).map Card.suit = some Suit.spades) :
    (calcTurnScores placed chosenHex cn reality noms st).scores.get n1.advisor
        = st.scores.get n1.advisor - 2
    ∧ (calcTurnScores placed chosenHex cn reality noms st).scores.get n2.advisor
        = st.scores.get n2.advisor - 2 := by
  have hflag : identicalSpadeFlag [n1, n2] = true := by
    simp only [identicalSpadeFlag, Bool.and_eq_true, beq_iff_eq]
    exact ⟨⟨hs1, hs2⟩, hv⟩
  unfold calcTurnScores
  rw [hf]
  simp only []
  rw [if_neg hnm]
  unfold scoreNonMine
  rw [if_pos (show (identicalSpadeFlag [n1, n2] = true)
      ∧ ¬ (reality chosenHex).map Card.suit = some Suit.spades from ⟨hflag, hnm⟩)]
  simp only [List.foldl_cons, List.foldl_nil]
  constructor
  · rw [Scores.get_ite_mayor,
      Scores.get_addAdvisor_other _ _ _ _ (fun h => hadv h.symm),
      Scores.get_addAdvisor_same]
    ring
  · rw [Scores.get_ite_mayor, Scores.get_addAdvisor_same,
      Scores.get_addAdvisor_other _ _ _ _ hadv]
    ring

/-!
The ordered tie-break of the non-mine branch: the loop winner is a
lexicographic minimum for the spec's key (distance, suit match, affinity).
-/

theorem keyBetter_irrefl (k : Nat × Bool × Bool) : ¬ keyBetter k k := by
  rcases k with ⟨d, s, m⟩
  simp [keyBetter]

theorem keyBetter_trans {a b c : Nat × Bool × Bool}
    (h1 : keyBetter a b) (h2 : keyBetter b c) : keyBetter a c := by
  rcases a with ⟨d1, s1, m1⟩
  rcases b with ⟨d2, s2, m2⟩
  rcases c with ⟨d3, s3, m3⟩
  simp only [keyBetter] at *
  cases s1 <;> cases s2 <;> cases s3 <;> cases m1 <;> cases m2 <;> cases m3 <;>
    simp_all <;> omega

theorem keyBetter_asymm {a b : Nat × Bool × Bool}
    (h1 : keyBetter a b) : ¬ keyBetter b a :=
  fun h2 => keyBetter_irrefl a (keyBetter_trans h1 h2)

theorem dominatedB_iff (diff bd : Nat) (sm dm bs bm : Bool) (w : Nomination) :
    dominatedB diff sm dm ⟨some bd, bs, bm, w⟩ = true
      ↔ keyBetter (diff, sm, dm) (bd, bs, bm) := by
  unfold dominatedB keyBetter
  simp only []
  by_cases h1 : diff < bd
  · simp [h1, keyBetter]
  · rw [if_neg h1]
    by_cases h2 : diff = bd
    · rw [if_pos h2]
      cases sm <;> cases bs <;> cases dm <;> cases bm <;> simp_all
    · rw [if_neg h2]
      simp
      omega

theorem tieBreak_fold_invariant (placed : Card) :
    ∀ (l : List Nomination) (w : Nomination) (processed : List Nomination),
      (∀ n ∈ processed, ¬ keyBetter (specKey placed n) (specKey placed w)) →
      ((l.foldl (tieBreakStep placed)
          ⟨some (claimDiff placed w), suitMatchB placed w, domainMatchB w, w⟩).winner
            ∈ w :: l)
      ∧ (∀ n ∈ processed ++ l,
          ¬ keyBetter (specKey placed n)
            (specKey placed (l.foldl (tieBreakStep placed)
              ⟨some (claimDiff placed w), suitMatchB placed w,
                domainMatchB w, w⟩).winner))
      ∧ ¬ keyBetter (specKey placed w)
          (specKey placed (l.foldl (tieBreakStep placed)
            ⟨some (claimDiff placed w), suitMatchB placed w,
              domainMatchB w, w⟩).winner) := by
  intro l
  induction l with
  | nil =>
      intro w processed hprev
      refine ⟨List.mem_singleton_self w, ?_, keyBetter_irrefl _⟩
      intro m hm
      rw [List.append_nil] at hm
      exact hprev m hm
  | cons n rest ih =>
      intro w processed hprev
      rw [List.foldl_cons]
      by_cases hdom : dominatedB (claimDiff placed n) (suitMatchB placed n)
          (domainMatchB n)
          ⟨some (claimDiff placed w), suitMatchB placed w, domainMatchB w, w⟩
            = true
      · have hstep : tieBreakStep placed
            ⟨some (claimDiff placed w), suitMatchB placed w, domainMatchB w, w⟩ n
              = ⟨some (claimDiff placed n), suitMatchB placed n,
                  domainMatchB n, n⟩ := by
          unfold tieBreakStep
          rw [if_pos hdom]
        rw [hstep]
        have hbetter : keyBetter (specKey placed n) (specKey placed w) :=
          (dominatedB_iff _ _ _ _ _ _ w).mp hdom
        have hprev' : ∀ m ∈ processed ++ [w],
            ¬ keyBetter (specKey placed m) (specKey placed n) := by
          intro m hm
          rcases List.mem_append.mp hm with hm | hm
          · exact fun hmb => hprev m hm (keyBetter_trans hmb hbetter)
          · rw [List.mem_singleton] at hm
            subst hm
            exact keyBetter_asymm hbetter
        obtain ⟨hw1, hw2, hw3⟩ := ih n (processed ++ [w]) hprev'
        refine ⟨List.mem_cons_of_mem _ hw1, ?_, ?_⟩
        · intro m hm
          rcases List.mem_append.mp hm with hm | hm
          · exact hw2 m (List.mem_append.mpr (Or.inl (List.mem_append.mpr (Or.inl hm))))
          · rcases List.mem_cons.mp hm with hm | hm
            · subst hm
              exact hw3
            · exact hw2 m (List.mem_append.mpr (Or.inr hm))
        · exact hw2 w (List.mem_append.mpr
            (Or.inl (List.mem_append.mpr (Or.inr (List.mem_singleton_self _)))))
      · have hstep : tieBreakStep placed
            ⟨some (claimDiff placed w), suitMatchB placed w, domainMatchB w, w⟩ n
              = ⟨some (claimDiff placed w), suitMatchB placed w,
                  domainMatchB w, w⟩ := by
          unfold tieBreakStep
          rw [if_neg hdom]
        rw [hstep]
        have hnb : ¬ keyBetter (specKey placed n) (specKey placed w) :=
          fun hb => hdom ((dominatedB_iff _ _ _ _ _ _ w).mpr hb)
        have hprev' : ∀ m ∈ processed ++ [n],
            ¬ keyBetter (specKey placed m) (specKey placed w) := by
          intro m hm
          rcases List.mem_append.mp hm with hm | hm
          · exact hprev m hm
          · rw [List.mem_singleton] at hm
            subst hm
            exact hnb
        obtain ⟨hw1, hw2, hw3⟩ := ih w (processed ++ [n]) hprev'
        refine ⟨?_, ?_, hw3⟩
        · rcases List.mem_cons.mp hw1 with h | h
          · rw [h]
            exact List.mem_cons_self _ _
          · exact List.mem_cons_of_mem _ (List.mem_cons_of_mem _ h)
        · intro m hm
          rcases List.mem_append.mp hm with hm | hm
          · exact hw2 m (List.mem_append.mpr (Or.inl (List.mem_append.mpr (Or.inl hm))))
          · rcases List.mem_cons.mp hm with hm | hm
            · subst hm
              exact hw2 m (List.mem_append.mpr
                (Or.inl (List.mem_append.mpr (Or.inr (List.mem_singleton_self _)))))
            · exact hw2 m (List.mem_append.mpr (Or.inr hm))

theorem selectWinner_first_step (placed : Card) (h : Nomination)
    (t : List Nomination) :
    selectWinner placed (h :: t) h
      = (t.foldl (tieBreakStep placed)
          ⟨some (claimDiff placed h), suitMatchB placed h,
            domainMatchB h, h⟩).winner := by
  unfold selectWinner
  rw [List.foldl_cons]
  rfl

/-- Claim C6: when a BUILD's chosen hex has a non-mine reality and the
nomination list for it is non-empty, the winning nomination returned by the
tie-break loop (`selectWinner`, the loop of `_calculate_turn_scores`) is a
member of the list on which no other nomination strictly beats it under the
spec's ordered key: (1) smallest |claim.value − placed.value|, then (2)
claim.suit = placed.suit, then (3) domain affinity (Hearts claims favour the
urbanist, Diamonds/Spades claims favour industry). -/
theorem tie_break_selects_lex_min (placed : Card) (h : Nomination)
    (t : List Nomination) :
    selectWinner placed (h :: t) h ∈ h :: t
    ∧ ∀ n ∈ h :: t,
        ¬ keyBetter (specKey placed n)
          (specKey placed (selectWinner placed (h :: t) h)) := by
  have inv := tieBreak_fold_invariant placed t h [h]
    (by
      intro n hn
      rw [List.mem_singleton] at hn
      subst hn
      exact keyBetter_irrefl _)
  rw [selectWinner_first_step]
  exact ⟨inv.1, inv.2.1⟩

/-!
Chance-node behaviour (`_apply_chance`, `_chance_legal_actions`,
`chance_outcomes`).
-/

theorem applyChance_spec (s : GameState) (i : Nat) (hi : i < NUM_CARDS) :
    ∃ t, applyChance s ((encodeChance i : Nat) : Int) = some t
      ∧ t.deck = s.deck ∧ t.discard = s.discard
      ∧ t.hand = s.hand ++ [index_to_card i]
      ∧ t.reality = s.reality ∧ t.builtHexes = s.builtHexes := by
  have harg : ((encodeChance i : Nat) : Int) - (ACTION_CHANCE_BASE : Int)
      = (i : Int) := by
    unfold encodeChance
    push_cast
    ring
  have hcard : index_to_card? ((i : Nat) : Int) = some (index_to_card i) := by
    unfold index_to_card? index_to_card
    rw [if_neg (by simp only [NUM_CARDS, NUM_SUITS, NUM_RANKS] at hi ⊢; omega)]
    simp [Int.toNat_ofNat]
  unfold applyChance
  rw [harg, hcard]
  simp only [Option.map_some']
  split
  · exact ⟨_, rfl, rfl, rfl, rfl, rfl, rfl⟩
  · exact ⟨_, rfl, rfl, rfl, rfl, rfl, rfl⟩

/-- Claim C1 (the conservation invariant is broken by the code):
`_apply_chance` constructs the drawn card from the chance outcome's index
(`index_to_card`) and appends it to the hand without removing anything from
the deck or the discard pile, and without touching the reality map or the
built hexes (the "placed or claimed" cards).  Hence
|deck| + |discard| + |hand| grows by exactly one at every chance draw while
every other card location is unchanged, so the fixed-39-card conservation
law claimed in the spec cannot hold across any chance node — and every turn
begins with four such draws. -/
theorem apply_chance_fabricates_card (s : GameState) (i : Fin NUM_CARDS) :
    ∃ t, applyChance s ((encodeChance i.val : Nat) : Int) = some t
      ∧ t.deck = s.deck
      ∧ t.discard = s.discard
      ∧ t.hand = s.hand ++ [index_to_card i.val]
      ∧ t.reality = s.reality
      ∧ t.builtHexes = s.builtHexes
      ∧ t.deck.length + t.discard.length + t.hand.length
          = s.deck.length + s.discard.length + s.hand.length + 1 := by
  obtain ⟨t, h1, h2, h3, h4, h5, h6⟩ := applyChance_spec s i.val i.isLt
  refine ⟨t, h1, h2, h3, h4, h5, h6, ?_⟩
  rw [h2, h3, h4]
  simp
  omega

/-- Claim C10 (implicit): at every chance node the legal chance actions
enumerate all 39 card IDs regardless of the deck and discard contents, each
with probability 1/39, and the drawn card is constructed from the chance
outcome's index rather than removed from the deck; consequently applying the
same chance outcome twice puts two copies of the same card into the Mayor's
hand. -/
theorem chance_draw_uniform_fabricated :
    (∀ (s : GameState) (dk dc : List Card),
        chanceLegalActions { s with deck := dk, discard := dc }
            = chanceLegalActions s
        ∧ (chanceLegalActions s).length = NUM_CARDS
        ∧ chanceLegalActions s = List.range' ACTION_CHANCE_BASE NUM_CARDS)
    ∧ (∀ s : GameState, currentPlayer s = .chanceP →
        chanceOutcomes s
          = (List.range' ACTION_CHANCE_BASE NUM_CARDS).map
              (fun a => (a, (1 : ℚ) / 39)))
    ∧ (∀ (s : GameState) (i : Fin NUM_CARDS),
        ∃ t1 t2,
          applyChance s ((encodeChance i.val : Nat) : Int) = some t1
          ∧ applyChance t1 ((encodeChance i.val : Nat) : Int) = some t2
          ∧ t1.deck = s.deck ∧ t2.deck = s.deck
          ∧ t1.hand = s.hand ++ [index_to_card i.val]
          ∧ t2.hand = s.hand ++ [index_to_card i.val, index_to_card i.val]) := by
  refine ⟨?_, ?_, ?_⟩
  · intro s dk dc
    exact ⟨rfl, by simp [chanceLegalActions], rfl⟩
  · intro s hs
    unfold chanceOutcomes
    rw [if_pos hs]
    unfold chanceLegalActions
    norm_num [NUM_CARDS, NUM_SUITS, NUM_RANKS]
  · intro s i
    obtain ⟨t1, h1, hd1, hdc1, hh1, hr1, hb1⟩ := applyChance_spec s i.val i.isLt
    obtain ⟨t2, h2, hd2, hdc2, hh2, hr2, hb2⟩ := applyChance_spec t1 i.val i.isLt
    refine ⟨t1, t2, h1, h2, hd1, by rw [hd2, hd1], hh1, ?_⟩
    rw [hh2, hh1]
    simp

/-- Claim C9 counterexample: at `sampleState` (four hand cards, two
nominations), the out-of-range action ID 4522 (`ACTION_CHANCE_BASE`, outside
every range `_apply_place` understands: it decodes to hand index 4 ≥ 4) and
an out-of-range commit (hex index 50 ≥ the frontier bound) are both silently
ignored — `apply_action` returns with the state unchanged and raises no
typed error. -/
theorem out_of_range_build_silently_ignored :
    applyPlace sampleState 4522 = some sampleState
    ∧ applyCommit sampleState 4506 Advisor.industry = some sampleState :=
  ⟨rfl, rfl⟩

/-- Claim C9 (amended): an action ID outside the valid sub-range for the
current phase is silently ignored rather than rejected with a typed error:
a BUILD decode whose hand index or nomination index is out of range leaves
the state unchanged (`return` after the guard), and a commit whose hex index
is at or past the frontier bound likewise returns the state unchanged (after
only printing a warning). -/
theorem invalid_action_noop_amended :
    (∀ (s : GameState) (a : Int),
        ¬ ((ACTION_CONTROL_REVEAL_BASE : Int) ≤ a
            ∧ a < (ACTION_COMMIT_BASE : Int)) →
        (s.hand.length : Int)
            ≤ Int.fdiv (a - (ACTION_BUILD_BASE : Int)) (MAX_NOMINATIONS : Int) →
        applyPlace s a = some s)
    ∧ (∀ (s : GameState) (a : Int),
        ¬ ((ACTION_CONTROL_REVEAL_BASE : Int) ≤ a
            ∧ a < (ACTION_COMMIT_BASE : Int)) →
        Int.fdiv (a - (ACTION_BUILD_BASE : Int)) (MAX_NOMINATIONS : Int)
            < (s.hand.length : Int) →
        (s.nominations.length : Int)
            ≤ Int.emod (a - (ACTION_BUILD_BASE : Int)) (MAX_NOMINATIONS : Int) →
        applyPlace s a = some s)
    ∧ (∀ (s : GameState) (a : Int) (p : Advisor),
        ((min (playableFrontier s.builtHexes).length s.maxFrontier : Nat) : Int)
            ≤ Int.fdiv (a - (ACTION_COMMIT_BASE : Int)) (NUM_CARDS : Int) →
        applyCommit s a p = some s) := by
  refine ⟨?_, ?_, ?_⟩
  · intro s a hr hg
    simp only [applyPlace]
    rw [if_neg hr, if_pos hg]
  · intro s a hr hg1 hg2
    simp only [applyPlace]
    rw [if_neg hr, if_neg (not_le.mpr hg1), if_pos hg2]
  · intro s a p hg
    simp only [applyCommit]
    rw [if_pos hg]

/-!
Stability of the observation encoder's hex→index cache.
-/

theorem findIdx?_append_some (l : List (Hex × Nat)) (h : Hex) (v : Nat)
    (e : Hex × Nat) (hf : findIdx? l h = some v) :
    findIdx? (l ++ [e]) h = some v := by
  induction l with
  | nil => simp [findIdx?] at hf
  | cons p rest ih =>
      rcases p with ⟨k, w⟩
      rw [List.cons_append]
      unfold findIdx? at hf ⊢
      by_cases hk : k = h
      · rw [if_pos hk] at hf ⊢
        exact hf
      · rw [if_neg hk] at hf ⊢
        exact ih hf

theorem findIdx?_append_self (l : List (Hex × Nat)) (h : Hex) (v : Nat)
    (hf : findIdx? l h = none) : findIdx? (l ++ [(h, v)]) h = some v := by
  induction l with
  | nil => simp [findIdx?]
  | cons p rest ih =>
      rcases p with ⟨k, w⟩
      rw [List.cons_append]
      unfold findIdx? at hf ⊢
      by_cases hk : k = h
      · rw [if_pos hk] at hf
        exact absurd hf (by simp)
      · rw [if_neg hk] at hf ⊢
        exact ih hf

theorem getHexIndex_self_stable (st : EncoderState) (h : Hex) :
    getHexIndex ((getHexIndex st h).2) h
      = ((getHexIndex st h).1, (getHexIndex st h).2) := by
  by_cases hinv : h = INVALID_HEX
  · simp [getHexIndex, hinv]
  · cases hfind : findIdx? st.hexToIdx h with
    | some v => simp [getHexIndex, hinv, hfind]
    | none =>
        by_cases hover : st.maxFrontier ≤ st.idxToHex.length
        · simp [getHexIndex, hinv, hfind, hover]
        · simp [getHexIndex, hinv, hfind, hover,
            findIdx?_append_self st.hexToIdx h st.idxToHex.length hfind]

theorem getHexIndex_state_cases (st : EncoderState) (g : Hex) :
    (getHexIndex st g).2 = st
    ∨ (∃ n, findIdx? st.hexToIdx g = none
        ∧ st.idxToHex.length < st.maxFrontier
        ∧ (getHexIndex st g).2
            = { st with hexToIdx := st.hexToIdx ++ [(g, st.idxToHex.length)],
                        idxToHex := st.idxToHex ++ [g] }
        ∧ n = st.idxToHex.length) := by
  by_cases ginv : g = INVALID_HEX
  · exact Or.inl (by simp [getHexIndex, ginv])
  · cases gfind : findIdx? st.hexToIdx g with
    | some v => exact Or.inl (by simp [getHexIndex, ginv, gfind])
    | none =>
        by_cases gover : st.maxFrontier ≤ st.idxToHex.length
        · exact Or.inl (by simp [getHexIndex, ginv, gfind, gover])
        · refine Or.inr ⟨st.idxToHex.length, rfl, not_le.mp gover, ?_, rfl⟩
          simp [getHexIndex, ginv, gfind, gover]

theorem getHexIndex_preserve_step (st : EncoderState) (h g : Hex) (i : Int)
    (hst : getHexIndex st h = (i, st)) :
    getHexIndex ((getHexIndex st g).2) h = (i, (getHexIndex st g).2) := by
  rcases getHexIndex_state_cases st g with hcase | ⟨n, gfind, gover, hcase, _⟩
  · rw [hcase]
    exact hst
  · rw [hcase]
    by_cases hinv : h = INVALID_HEX
    · have hi : i = -1 := by
        rw [getHexIndex, if_pos hinv] at hst
        exact (Prod.mk.injEq _ _ _ _ ▸ hst :
          (-1 : Int) = i ∧ st = st).1.symm
      rw [hi]
      simp [getHexIndex, hinv]
    · cases hfind : findIdx? st.hexToIdx h with
      | some v =>
          have hgneq : g ≠ h := by
            intro hgh
            rw [hgh, hfind] at gfind
            exact Option.noConfusion gfind
          have hi : i = (v : Int) := by
            rw [getHexIndex, if_neg hinv, hfind] at hst
            exact (Prod.mk.injEq _ _ _ _ ▸ hst :
              ((v : Int) = i ∧ st = st)).1.symm
          rw [hi]
          simp [getHexIndex, hinv,
            findIdx?_append_some st.hexToIdx h v (g, st.idxToHex.length) hfind]
      | none =>
          by_cases hover : st.maxFrontier ≤ st.idxToHex.length
          · exact absurd hover (not_le.mpr gover)
          · exfalso
            rw [getHexIndex, if_neg hinv, hfind, if_neg (not_le.mpr (by omega))] at hst
            have := congrArg (fun e => e.2.hexToIdx.length) hst
            simp at this

theorem runIdx_preserve (l : List Hex) (st : EncoderState) (h : Hex) (i : Int)
    (hst : getHexIndex st h = (i, st)) :
    getHexIndex ((runIdx l st).2) h = (i, (runIdx l st).2) := by
  induction l generalizing st with
  | nil => exact hst
  | cons g rest ih =>
      have hstep := getHexIndex_preserve_step st h g i hst
      have hsnd : (runIdx (g :: rest) st).2 = (runIdx rest ((getHexIndex st g).2)).2 := rfl
      rw [hsnd]
      exact ih _ hstep

theorem runIdx_norerun (l : List Hex) (st : EncoderState) :
    runIdx l ((runIdx l st).2) = ((runIdx l st).1, (runIdx l st).2) := by
  induction l generalizing st with
  | nil => rfl
  | cons g rest ih =>
      have hself := getHexIndex_self_stable st g
      have hpres := runIdx_preserve rest ((getHexIndex st g).2) g
        ((getHexIndex st g).1) hself
      show runIdx (g :: rest) ((runIdx rest ((getHexIndex st g).2)).2)
        = ((getHexIndex st g).1 :: (runIdx rest ((getHexIndex st g).2)).1,
           (runIdx rest ((getHexIndex st g).2)).2)
      have hexp : runIdx (g :: rest) ((runIdx rest ((getHexIndex st g).2)).2)
          = ((getHexIndex ((runIdx rest ((getHexIndex st g).2)).2) g).1
              :: (runIdx rest
                  ((getHexIndex ((runIdx rest ((getHexIndex st g).2)).2) g).2)).1,
             (runIdx rest
               ((getHexIndex ((runIdx rest ((getHexIndex st g).2)).2) g).2)).2) := rfl
      rw [hexp, hpres]
      have ih2 := ih ((getHexIndex st g).2)
      rw [show (runIdx rest ((runIdx rest ((getHexIndex st g).2)).2)).1
            = (runIdx rest ((getHexIndex st g).2)).1 from congrArg Prod.fst ih2,
          show (runIdx rest ((runIdx rest ((getHexIndex st g).2)).2)).2
            = (runIdx rest ((getHexIndex st g).2)).2 from congrArg Prod.snd ih2]

theorem encodeHexMaskGo_decompose (size : Nat) (l : List Hex) :
    ∀ (m : Nat → Bool) (st : EncoderState),
      encodeHexMaskGo size l m st
        = (setMaskBits size (runIdx l st).1 m, (runIdx l st).2) := by
  induction l with
  | nil => intro m st; rfl
  | cons h rest ih =>
      intro m st
      show encodeHexMaskGo size rest _ ((getHexIndex st h).2) = _
      rw [ih]
      rfl

/-- Claim C8 counterexample: producing an encoding for a fresh hex mutates
the persistent hex→index cache — one `get_hex_index` call on an empty
encoder changes the encoder state, so the observation encoder is not free of
side effects on persistent ordering state. -/
theorem get_hex_index_mutates_cache :
    (getHexIndex sampleEncoder ((1 : Int), (-1 : Int), (0 : Int))).2
      ≠ sampleEncoder := by decide

/-- Claim C8 (amended): `get_hex_index` does mutate the shared hex→index
cache when it first sees a hex (first-come-first-served assignment), but the
assignment is idempotent: repeating the same call returns the same index and
leaves the cache unchanged, and re-running a whole `encode_hex_mask` pass
from the state it produced returns the identical mask and state — so calling
`observation()` twice cannot change its own output. -/
theorem hex_index_assignment_idempotent :
    (∀ (st : EncoderState) (h : Hex),
        getHexIndex ((getHexIndex st h).2) h
          = ((getHexIndex st h).1, (getHexIndex st h).2))
    ∧ (∀ (st : EncoderState) (hexes : List Hex) (size : Nat),
        encodeHexMask ((encodeHexMask st hexes size).2) hexes size
          = ((encodeHexMask st hexes size).1, (encodeHexMask st hexes size).2)) := by
  refine ⟨getHexIndex_self_stable, ?_⟩
  intro st hexes size
  unfold encodeHexMask
  rw [encodeHexMaskGo_decompose, encodeHexMaskGo_decompose, runIdx_norerun]

/-- Claim C4 counterexample: building hand card 0 (7♥) on nomination 1 (the
safe Hearts hex) of `sampleState` gives the Mayor a turn reward strictly
larger than the claimed own-delta-minus-half-of-others value: the +10
survival bonus (and the non-negative mine-dodge bonus) is added on top of
the formula, so the reward is not exactly the recomputed formula. -/
theorem turn_reward_formula_counterexample :
    applyPlace sampleState ((encodeBuild 0 1 : Nat) : Int) = some c4Result
    ∧ c4Result.turnRewards.mayor
        ≠ ((c4Result.scores.mayor - sampleState.scores.mayor : Int) : ℚ)
          - (((c4Result.scores.industry - sampleState.scores.industry : Int) : ℚ)
             + ((c4Result.scores.urbanist - sampleState.scores.urbanist : Int) : ℚ))
            / 2 := by
  have happ : applyPlace sampleState ((encodeBuild 0 1 : Nat) : Int)
      = some (buildStep sampleState
          (sampleState.nominations.get ⟨1, by decide⟩)
          (sampleState.hand.get ⟨0, by decide⟩) ((0 : Nat) : Int)) :=
    applyPlace_valid_build sampleState 0 1 (by decide) (by decide) (by decide)
  have hc4 : c4Result = buildStep sampleState
      (sampleState.nominations.get ⟨1, by decide⟩)
      (sampleState.hand.get ⟨0, by decide⟩) ((0 : Nat) : Int) := by
    unfold c4Result
    rw [happ]
    rfl
  constructor
  · rw [hc4]
    exact happ
  · rw [hc4]
    have h := buildStep_nonMine sampleState
      (sampleState.nominations.get ⟨1, by decide⟩)
      (sampleState.hand.get ⟨0, by decide⟩) ((0 : Nat) : Int)
      (make_card Suit.hearts 7) (by decide) (by decide)
      (List.get_mem _ _ _) (by decide)
    rw [h.2.2]
    have hnn := mineDodgeBonus_nonneg
      (sampleState.nominations.get ⟨1, by decide⟩).hex
      sampleState.reality sampleState.nominations
    intro heq
    linarith [heq]

/-- Witness: `mine_build_advisor_scoring` applied to the concrete
`sampleState`, building hand card 0 on nomination 0 (the mine hex). -/
theorem mine_build_advisor_scoring_witness :
    ((0 : Nat) < sampleState.hand.length
      ∧ (0 : Nat) < MAX_NOMINATIONS
      ∧ (0 : Nat) < sampleState.nominations.length
      ∧ sampleState.reality (sampleState.nominations.get ⟨0, by decide⟩).hex
          = some (make_card Suit.spades 0)
      ∧ (make_card Suit.spades 0).suit = Suit.spades
      ∧ (∀ n ∈ sampleState.nominations, (sampleState.reality n.hex).isSome))
    ∧ ∃ t, applyPlace sampleState ((encodeBuild 0 0 : Nat) : Int) = some t
        ∧ ∀ adv : Advisor,
            t.scores.get adv
              = sampleState.scores.get adv
                + specMineHexDelta (sampleState.nominations.get ⟨0, by decide⟩).hex
                    sampleState.nominations adv
                + specCascadeDelta sampleState.reality sampleState.nominations adv :=
  ⟨⟨by decide, by decide, by decide, by decide, by decide, by decide⟩,
    mine_build_advisor_scoring sampleState 0 0 (by decide) (by decide)
      (by decide) (make_card Suit.spades 0) (by decide) (by decide) (by decide)⟩

/-- Witness: `mine_build_terminal_returns` applied to the concrete
`sampleState`, building hand card 0 on nomination 0 (the mine hex). -/
theorem mine_build_terminal_returns_witness :
    ((0 : Nat) < sampleState.hand.length
      ∧ (0 : Nat) < MAX_NOMINATIONS
      ∧ (0 : Nat) < sampleState.nominations.length
      ∧ sampleState.reality (sampleState.nominations.get ⟨0, by decide⟩).hex
          = some (make_card Suit.spades 0)
      ∧ (make_card Suit.spades 0).suit = Suit.spades)
    ∧ ∃ t, applyPlace sampleState ((encodeBuild 0 0 : Nat) : Int) = some t
        ∧ t.isTerminal = true
        ∧ t.mayorHitMine = true
        ∧ t.scores.mayor = sampleState.scores.mayor
        ∧ t.returns.get? 0 = some ((sampleState.scores.mayor : Int) : ℚ) :=
  ⟨⟨by decide, by decide, by decide, by decide, by decide⟩,
    mine_build_terminal_returns sampleState 0 0 (by decide) (by decide)
      (by decide) (make_card Suit.spades 0) (by decide) (by decide)⟩

/-- Witness: `turn_reward_recompute_amended` applied to the concrete
`sampleState`, building hand card 0 on nomination 1 (the safe Hearts hex). -/
theorem turn_reward_recompute_amended_witness :
    ((0 : Nat) < sampleState.hand.length
      ∧ (1 : Nat) < MAX_NOMINATIONS
      ∧ (1 : Nat) < sampleState.nominations.length
      ∧ sampleState.reality (sampleState.nominations.get ⟨1, by decide⟩).hex
          = some (make_card Suit.hearts 7)
      ∧ (∀ n ∈ sampleState.nominations, (sampleState.reality n.hex).isSome))
    ∧ ∃ t, applyPlace sampleState ((encodeBuild 0 1 : Nat) : Int) = some t
        ∧ (¬ (make_card Suit.hearts 7).suit = Suit.spades →
            t.turnRewards.industry
                = ((t.scores.industry - sampleState.scores.industry : Int) : ℚ)
                  - (((t.scores.mayor - sampleState.scores.mayor : Int) : ℚ)
                     + ((t.scores.urbanist - sampleState.scores.urbanist : Int) : ℚ)) / 2
            ∧ t.turnRewards.urbanist
                = ((t.scores.urbanist - sampleState.scores.urbanist : Int) : ℚ)
                  - (((t.scores.mayor - sampleState.scores.mayor : Int) : ℚ)
                     + ((t.scores.industry - sampleState.scores.industry : Int) : ℚ)) / 2
            ∧ t.turnRewards.mayor
                = ((t.scores.mayor - sampleState.scores.mayor : Int) : ℚ)
                  - (((t.scores.industry - sampleState.scores.industry : Int) : ℚ)
                     + ((t.scores.urbanist - sampleState.scores.urbanist : Int) : ℚ)) / 2
                  + 10
                  + mineDodgeBonus (sampleState.nominations.get ⟨1, by decide⟩).hex
                      sampleState.reality sampleState.nominations)
        ∧ ((make_card Suit.hearts 7).suit = Suit.spades →
            t.turnRewards.mayor = -10) :=
  ⟨⟨by decide, by decide, by decide, by decide, by decide⟩,
    turn_reward_recompute_amended sampleState 0 1 (by decide) (by decide)
      (by decide) (make_card Suit.hearts 7) (by decide) (by decide)⟩

/-- Witness: `tie_break_selects_lex_min` at a concrete two-nomination list,
with the membership hypothesis discharged at `sampleNomSafe`. -/
theorem tie_break_selects_lex_min_witness :
    (sampleNomSafe ∈ sampleNomMine :: [sampleNomSafe])
    ∧ ¬ keyBetter (specKey (make_card Suit.hearts 5) sampleNomSafe)
        (specKey (make_card Suit.hearts 5)
          (selectWinner (make_card Suit.hearts 5)
            (sampleNomMine :: [sampleNomSafe]) sampleNomMine)) :=
  ⟨by decide,
    (tie_break_selects_lex_min (make_card Suit.hearts 5) sampleNomMine
      [sampleNomSafe]).2 sampleNomSafe (by decide)⟩

/-- Witness: `identical_spade_false_alarm_penalty` at a concrete pair of
identical Spade claims on the safe Hearts hex. -/
theorem identical_spade_false_alarm_penalty_witness :
    (([spadeNomInd, spadeNomUrb].filter
        (fun n => decide (n.hex = ((1 : Int), (0 : Int), (-1 : Int)))))
          = [spadeNomInd, spadeNomUrb]
    ∧ ¬ spadeNomInd.advisor = spadeNomUrb.advisor
    ∧ spadeNomInd.claim.suit = Suit.spades
    ∧ spadeNomInd.claim.suit = spadeNomUrb.claim.suit
    ∧ spadeNomInd.claim.value = spadeNomUrb.claim.value
    ∧ ¬ (sampleReality ((1 : Int), (0 : Int), (-1 : Int))).map Card.suit
          = some Suit.spades)
    ∧ (calcTurnScores (make_card Suit.hearts 5)
          ((1 : Int), (0 : Int), (-1 : Int)) spadeNomInd sampleReality
          [spadeNomInd, spadeNomUrb] ⟨⟨0, 0, 0⟩, ⟨0, 0, 0⟩⟩).scores.get
            spadeNomInd.advisor
        = (⟨⟨0, 0, 0⟩, ⟨0, 0, 0⟩⟩ : ScoringState).scores.get
            spadeNomInd.advisor - 2
    ∧ (calcTurnScores (make_card Suit.hearts 5)
          ((1 : Int), (0 : Int), (-1 : Int)) spadeNomInd sampleReality
          [spadeNomInd, spadeNomUrb] ⟨⟨0, 0, 0⟩, ⟨0, 0, 0⟩⟩).scores.get
            spadeNomUrb.advisor
        = (⟨⟨0, 0, 0⟩, ⟨0, 0, 0⟩⟩ : ScoringState).scores.get
            spadeNomUrb.advisor - 2 :=
  ⟨⟨by decide, by decide, by decide, by decide, by decide, by decide⟩,
    (identical_spade_false_alarm_penalty (make_card Suit.hearts 5)
      ((1 : Int), (0 : Int), (-1 : Int)) spadeNomInd sampleReality
      [spadeNomInd, spadeNomUrb] ⟨⟨0, 0, 0⟩, ⟨0, 0, 0⟩⟩ spadeNomInd spadeNomUrb
      (by decide) (by decide) (by decide) (by decide) (by decide) (by decide)).1,
    (identical_spade_false_alarm_penalty (make_card Suit.hearts 5)
      ((1 : Int), (0 : Int), (-1 : Int)) spadeNomInd sampleReality
      [spadeNomInd, spadeNomUrb] ⟨⟨0, 0, 0⟩, ⟨0, 0, 0⟩⟩ spadeNomInd spadeNomUrb
      (by decide) (by decide) (by decide) (by decide) (by decide) (by decide)).2⟩

/-- Witness: `invalid_action_noop_amended` at the concrete `sampleState` with
the out-of-range commit hex index 50 (action 4506 decodes to hex 50 ≥ 6). -/
theorem invalid_action_noop_amended_witness :
    (((min (playableFrontier sampleState.builtHexes).length
        sampleState.maxFrontier : Nat) : Int)
          ≤ Int.fdiv ((4506 : Int) - (ACTION_COMMIT_BASE : Int)) (NUM_CARDS : Int))
    ∧ applyCommit sampleState 4506 Advisor.urbanist = some sampleState :=
  ⟨by decide,
    invalid_action_noop_amended.2.2 sampleState 4506 Advisor.urbanist (by decide)⟩

/-- Witness: `chance_draw_uniform_fabricated`, outcome list at the concrete
chance node `sampleChanceState`. -/
theorem chance_draw_uniform_fabricated_witness :
    currentPlayer sampleChanceState = .chanceP
    ∧ chanceOutcomes sampleChanceState
        = (List.range' ACTION_CHANCE_BASE NUM_CARDS).map
            (fun a => (a, (1 : ℚ) / 39)) :=
  ⟨by decide, chance_draw_uniform_fabricated.2.1 sampleChanceState (by decide)⟩
